import Mathlib

/-!
Verification of the core of `dtrudg/oci-tools` against its specification.

Two components are embedded:

* `pkg/mutate/image.go` — the lazy, memoized manifest builder (`image` struct,
  `populate`, the accessors).  Go pointer structure matters for the
  copy-on-override claims, so `*v1.Manifest` / `*v1.ConfigFile` values are
  modelled as indices into an explicit `Heap`; `DeepCopy` allocates a fresh
  cell.  Fallible external calls (`base.ConfigFile()`, `l.DiffID()`,
  `json.Marshal`, `v1.SHA256`, …) are modelled as `Except`-valued data or as
  function fields of an `Env` record, since those collaborators are external
  to this repository.

* `pkg/sif/update.go` — the content-addressed blob synchronizer (`Update`,
  `cacheIndexBlobs`, `cacheImageBlobs`, `sifBlobs`, `deleteBlobsExcept`,
  `deleteRootIndex`).  The SIF store is a list of digest-addressed blob
  objects plus one root-index object; every store mutation and every staging
  of a blob into the per-call cache directory is additionally recorded in an
  operation trace so that ordering properties can be stated.
-/

namespace OciTools

/-- `v1.Hash` (a content digest / diff-ID).  Modelled as a natural number. -/
abbrev Hash := Nat

/-- Go `error` values that appear in the embedded code.  External collaborator
errors are `generic n`; the remaining constructors are the distinguishable
conditions of the embedded code. -/
inductive GoErr where
  /-- an opaque error produced by an external collaborator -/
  | generic (code : Nat)
  /-- `errLayerNotFound` from `pkg/mutate/image.go` -/
  | layerNotFound
  /-- a Go runtime index-out-of-range panic (`ls[i]` with `i >= len(ls)`) -/
  | outOfRange
  /-- `ii.ImageIndex(d)` / `ii.Image(d)` called on a digest of the wrong kind -/
  | kindMismatch
  /-- the argument error of the spec's `NewLazyImage` constructor -/
  | argumentError
  /-- `readCacheBlob` on a digest that was never staged -/
  | cacheMiss
  /-- the SIF holds no root-index object -/
  | noRootIndex
deriving DecidableEq, Repr

/-- The media types distinguished by the `switch` in `cacheIndexBlobs`. -/
inductive MediaType where
  | dockerManifestList
  | ociImageIndex
  | dockerManifestSchema2
  | ociManifestSchema1
  | other (n : Nat)
deriving DecidableEq, Repr

/-- The first `case` of the `switch` in `cacheIndexBlobs`:
`types.DockerManifestList, types.OCIImageIndex`. -/
def MediaType.isIndexKind : MediaType → Bool
  | .dockerManifestList => true
  | .ociImageIndex => true
  | _ => false

/-- The second `case` of the `switch` in `cacheIndexBlobs`:
`types.DockerManifestSchema2, types.OCIManifestSchema1`. -/
def MediaType.isImageKind : MediaType → Bool
  | .dockerManifestSchema2 => true
  | .ociManifestSchema1 => true
  | _ => false

/-- `v1.Descriptor`: media type, digest, size and optional inline data. -/
structure Descriptor where
  mediaType : MediaType
  digest : Hash
  size : Nat
  data : Option (List Nat)
deriving DecidableEq, Repr

/-- `v1.History`: an opaque history record of a config file. -/
structure History where
  note : Nat
deriving DecidableEq, Repr

/-- `v1.ConfigFile`: the ordered diff-ID list (`RootFS.DiffIDs`), the history
list, and the remaining metadata collapsed into one opaque field. -/
structure ConfigFile where
  diffIDs : List Hash
  history : List History
  meta : Nat
deriving DecidableEq, Repr

instance : Inhabited ConfigFile := ⟨⟨[], [], 0⟩⟩

/-- `v1.Manifest`: ordered layer descriptor list plus config descriptor. -/
structure Manifest where
  layers : List Descriptor
  config : Descriptor
deriving DecidableEq, Repr

instance : Inhabited Manifest := ⟨⟨[], ⟨.other 0, 0, 0, none⟩⟩⟩

deriving instance DecidableEq for Except

/-- `v1.Layer`: an opaque layer exposing digest, diff-ID, media type, size and
a compressed content stream.  The accessors are fallible in Go, so the digest,
diff-ID and size are carried as `Except` results; `content` is the byte
sequence delivered by `Compressed()`. -/
structure Layer where
  digestRes : Except GoErr Hash
  diffIDRes : Except GoErr Hash
  sizeRes : Except GoErr Nat
  mediaType : MediaType
  content : List Nat
deriving DecidableEq, Repr

/-- Lookup in a Go map modelled as an association list (`mapInsert` below
keeps at most one entry per key). -/
def mapLookup {β : Type} : List (Hash × β) → Hash → Option β
  | [], _ => none
  | (k, v) :: rest, k' => if k' = k then some v else mapLookup rest k'

/-- Go map assignment `m[k] = v`: replaces any existing entry for `k`. -/
def mapInsert {β : Type} (m : List (Hash × β)) (k : Hash) (v : β) : List (Hash × β) :=
  (k, v) :: m.filter (fun p => p.1 != k)

/-- The external collaborators that compute hashes and serialized forms:
`v1.Hash`-of-bytes for SIF blobs, `json.Marshal` for config files, and
`v1.SHA256`.  All are deterministic functions of their input. -/
structure Env where
  hashBytes : List Nat → Hash
  marshalConfig : ConfigFile → Except GoErr (List Nat)
  sha256 : List Nat → Except GoErr (Hash × Nat)

/-! ## The lazy manifest builder (`pkg/mutate/image.go`) -/

/-- The heap of `*v1.Manifest` and `*v1.ConfigFile` objects.  A Go pointer is
an index into one of the two lists. -/
structure Heap where
  manifests : List Manifest
  configs : List ConfigFile
deriving DecidableEq, Repr

/-- Write through a `*v1.ConfigFile` pointer. -/
def heapSetConfig (hp : Heap) (r : Nat) (f : ConfigFile → ConfigFile) : Heap :=
  { hp with configs := hp.configs.set r (f (hp.configs.getD r default)) }

/-- Write through a `*v1.Manifest` pointer. -/
def heapSetManifest (hp : Heap) (r : Nat) (f : Manifest → Manifest) : Heap :=
  { hp with manifests := hp.manifests.set r (f (hp.manifests.getD r default)) }

/-- The base `v1.Image` consumed by the lazy image: `ConfigFile()` and
`Manifest()` return pointers into the heap (or an error), `Layers()` returns
the ordered layer list (or an error). -/
structure BaseImage where
  cfgRes : Except GoErr Nat
  manRes : Except GoErr Nat
  layersRes : Except GoErr (List Layer)
deriving DecidableEq, Repr

/-- The `image` struct of `pkg/mutate/image.go`.  `overrides[i] = none` is a
nil entry (keep the base layer); the derived fields after `computed` are the
memoized state, with the manifest and config held by pointer. -/
structure LazyImage where
  base : BaseImage
  overrides : List (Option Layer)
  history : Option History
  computed : Bool
  diffIDs : List Hash
  byDiffID : List (Hash × Layer)
  byDigest : List (Hash × Layer)
  manifestRef : Option Nat
  configRef : Option Nat
deriving DecidableEq, Repr

/-- The external `partial.Descriptor(l)`: builds a descriptor for a layer from
its media type, digest and size. -/
def layerDescriptor (l : Layer) : Except GoErr Descriptor :=
  match l.digestRes with
  | .error e => .error e
  | .ok d =>
    match l.sizeRes with
    | .error e => .error e
    | .ok s => .ok { mediaType := l.mediaType, digest := d, size := s, data := none }

/-- The effective layer at index `i` of the loop in `populate`:
`if l == nil { l = ls[i] }`.  A nil override at an index beyond the base layer
count is a Go index-out-of-range panic. -/
def effectiveLayer (ls : List Layer) (o : Option Layer) (i : Nat) : Except GoErr Layer :=
  match o with
  | some l => .ok l
  | none =>
    match ls[i]? with
    | some l => .ok l
    | none => .error .outOfRange

/-- The loop body of `populate` over `img.overrides`, accumulating the layer
descriptor list, the diff-ID list and the two lookup maps. -/
def buildLayerDataAux (ls : List Layer) :
    List (Option Layer) → Nat → List Descriptor → List Hash →
    List (Hash × Layer) → List (Hash × Layer) →
    Except GoErr (List Descriptor × List Hash × List (Hash × Layer) × List (Hash × Layer))
  | [], _, accL, accD, accM1, accM2 => .ok (accL, accD, accM1, accM2)
  | o :: rest, i, accL, accD, accM1, accM2 =>
    match effectiveLayer ls o i with
    | .error e => .error e
    | .ok l =>
      match layerDescriptor l with
      | .error e => .error e
      | .ok d =>
        match l.diffIDRes with
        | .error e => .error e
        | .ok diffID =>
          buildLayerDataAux ls rest (i + 1) (accL ++ [d]) (accD ++ [diffID])
            (mapInsert accM1 diffID l) (mapInsert accM2 d.digest l)

/-- The full loop of `populate`, started with empty accumulators. -/
def buildLayerData (ls : List Layer) (overrides : List (Option Layer)) :
    Except GoErr (List Descriptor × List Hash × List (Hash × Layer) × List (Hash × Layer)) :=
  buildLayerDataAux ls overrides 0 [] [] [] []

/-- `(img *image) populate()`: the compute-once pass.  Returns the result of
the call together with the heap and the image as left by the call; every Go
`return err` path returns the image unmodified, and the derived fields are
assigned only at the very end. -/
def populate (env : Env) (hp : Heap) (img : LazyImage) :
    Except GoErr Unit × Heap × LazyImage :=
  if img.computed then (.ok (), hp, img)
  else
    match img.base.cfgRes with
    | .error e => (.error e, hp, img)
    | .ok cfgB =>
      let c0 := hp.configs.getD cfgB default
      let cfgR := hp.configs.length
      let hp1 : Heap := { hp with configs := hp.configs ++ [c0] }
      match img.base.manRes with
      | .error e => (.error e, hp1, img)
      | .ok manB =>
        let m0 := hp1.manifests.getD manB default
        let manR := hp1.manifests.length
        let hp2 : Heap := { hp1 with manifests := hp1.manifests ++ [m0] }
        match img.base.layersRes with
        | .error e => (.error e, hp2, img)
        | .ok ls =>
          match buildLayerData ls img.overrides with
          | .error e => (.error e, hp2, img)
          | .ok (layersAcc, diffIDs, byDiffID, byDigest) =>
            let hp3 := heapSetManifest hp2 manR (fun m => { m with layers := layersAcc })
            let hp4 := heapSetConfig hp3 cfgR (fun c => { c with diffIDs := diffIDs })
            let hp5 :=
              match img.history with
              | some hrec => heapSetConfig hp4 cfgR (fun c => { c with history := [hrec] })
              | none => hp4
            match env.marshalConfig (hp5.configs.getD cfgR default) with
            | .error e => (.error e, hp5, img)
            | .ok config =>
              match env.sha256 config with
              | .error e => (.error e, hp5, img)
              | .ok (dg, sz) =>
                let hp6 := heapSetManifest hp5 manR
                  (fun m => { m with config := { m.config with digest := dg, size := sz } })
                let hp7 :=
                  if (hp6.manifests.getD manR default).config.data ≠ none then
                    heapSetManifest hp6 manR
                      (fun m => { m with config := { m.config with data := some config } })
                  else hp6
                (.ok (), hp7,
                  { img with
                    computed := true, diffIDs := diffIDs, byDiffID := byDiffID,
                    byDigest := byDigest, manifestRef := some manR, configRef := some cfgR })

/-- `(img *image) LayerByDigest(h)`. -/
def layerByDigest (env : Env) (hp : Heap) (img : LazyImage) (h : Hash) :
    Except GoErr Layer × Heap × LazyImage :=
  match populate env hp img with
  | (.error e, hp', img') => (.error e, hp', img')
  | (.ok _, hp', img') =>
    match mapLookup img'.byDigest h with
    | some l => (.ok l, hp', img')
    | none => (.error .layerNotFound, hp', img')

/-- `(img *image) LayerByDiffID(h)`. -/
def layerByDiffID (env : Env) (hp : Heap) (img : LazyImage) (h : Hash) :
    Except GoErr Layer × Heap × LazyImage :=
  match populate env hp img with
  | (.error e, hp', img') => (.error e, hp', img')
  | (.ok _, hp', img') =>
    match mapLookup img'.byDiffID h with
    | some l => (.ok l, hp', img')
    | none => (.error .layerNotFound, hp', img')

/-- The loop of `(img *image) Layers()` over `img.diffIDs`. -/
def layersLoop (env : Env) (hp : Heap) (img : LazyImage) :
    List Hash → Except GoErr (List Layer) × Heap × LazyImage
  | [] => (.ok [], hp, img)
  | d :: rest =>
    match layerByDiffID env hp img d with
    | (.error e, hp', img') => (.error e, hp', img')
    | (.ok l, hp', img') =>
      match layersLoop env hp' img' rest with
      | (.error e, hp2, img2) => (.error e, hp2, img2)
      | (.ok tail, hp2, img2) => (.ok (l :: tail), hp2, img2)

/-- `(img *image) Layers()`. -/
def layersAccessor (env : Env) (hp : Heap) (img : LazyImage) :
    Except GoErr (List Layer) × Heap × LazyImage :=
  match populate env hp img with
  | (.error e, hp', img') => (.error e, hp', img')
  | (.ok _, hp', img') => layersLoop env hp' img' img'.diffIDs

/-- `(img *image) Manifest()`: populate, then return the manifest pointer. -/
def manifestAccessor (env : Env) (hp : Heap) (img : LazyImage) :
    Except GoErr (Option Nat) × Heap × LazyImage :=
  match populate env hp img with
  | (.error e, hp', img') => (.error e, hp', img')
  | (.ok _, hp', img') => (.ok img'.manifestRef, hp', img')

/-- `(img *image) ConfigFile()`: populate, then return the config pointer. -/
def configFileAccessor (env : Env) (hp : Heap) (img : LazyImage) :
    Except GoErr (Option Nat) × Heap × LazyImage :=
  match populate env hp img with
  | (.error e, hp', img') => (.error e, hp', img')
  | (.ok _, hp', img') => (.ok img'.configRef, hp', img')

/-- Modelled from the spec: the constructor `NewLazyImage(base, overrides,
historyOverride)` of the produced surface (the `pkg/mutate` constructor is not
under `src/`).  Per the spec, the override list must have the same length as
the base layer count, and "violating this is an argument error"; the derived
fields start in their Go zero values. -/
def NewLazyImage (base : BaseImage) (overrides : List (Option Layer))
    (history : Option History) : Except GoErr LazyImage :=
  match base.layersRes with
  | .error e => .error e
  | .ok ls =>
    if overrides.length = ls.length then
      .ok { base := base, overrides := overrides, history := history, computed := false,
            diffIDs := [], byDiffID := [], byDigest := [],
            manifestRef := none, configRef := none }
    else
      .error .argumentError

/-- One accessor call on a lazy image (the operations of section 4.1 that
trigger the compute-once pass). -/
inductive Accessor where
  | manifestA
  | configFileA
  | layersA
  | layerByDigestA (h : Hash)
  | layerByDiffIDA (h : Hash)
deriving DecidableEq, Repr

/-- Run one accessor, keeping only its effect on the heap and the image. -/
def runAccessor (env : Env) (a : Accessor) (hp : Heap) (img : LazyImage) :
    Heap × LazyImage :=
  match a with
  | .manifestA => (manifestAccessor env hp img).2
  | .configFileA => (configFileAccessor env hp img).2
  | .layersA => (layersAccessor env hp img).2
  | .layerByDigestA h => (layerByDigest env hp img h).2
  | .layerByDiffIDA h => (layerByDiffID env hp img h).2

/-- Run a sequence of accessor calls. -/
def runAccessors (env : Env) : List Accessor → Heap → LazyImage → Heap × LazyImage
  | [], hp, img => (hp, img)
  | a :: rest, hp, img =>
    let (hp', img') := runAccessor env a hp img
    runAccessors env rest hp' img'

/-! ## The content-addressed blob synchronizer (`pkg/sif/update.go`) -/

/-- A `v1.Image` as consumed by `cacheImageBlobs`: ordered layers, the parsed
manifest (for the config descriptor), and the raw manifest / raw config bytes.
`Layers()` and `Manifest()` are fallible in Go. -/
structure ImageT where
  layersRes : Except GoErr (List Layer)
  manifestRes : Except GoErr Manifest
  rawManifest : List Nat
  rawConfig : List Nat
deriving DecidableEq, Repr

/-- One entry of an image index's manifest list, together with the object the
digest resolves to: a nested index (its raw bytes and child entries), a child
image, or some other content blob. -/
inductive IdxEntry where
  | idx (d : Descriptor) (raw : List Nat) (entries : List IdxEntry)
  | img (d : Descriptor) (im : ImageT)
  | blob (d : Descriptor) (content : List Nat)

/-- The descriptor of an index entry. -/
def IdxEntry.desc : IdxEntry → Descriptor
  | .idx d _ _ => d
  | .img d _ => d
  | .blob d _ => d

/-- The raw bytes of the object an entry's digest resolves to (what
`blobFromIndex` delivers for that digest). -/
def IdxEntry.rawBytes : IdxEntry → List Nat
  | .idx _ raw _ => raw
  | .img _ im => im.rawManifest
  | .blob _ content => content

/-- A `v1.ImageIndex` handed to `Update`: its manifest entry list, its raw
manifest bytes, and its digest. -/
structure ImageIndexT where
  entries : List IdxEntry
  raw : List Nat
  digest : Hash

/-- The per-call blob cache directory: one file per digest
(`writeCacheBlob` truncates and rewrites an existing file). -/
abbrev CacheMap := List (Hash × List Nat)

/-- A store mutation or staging event of one `Update` call, in program order. -/
inductive StoreOp where
  /-- `writeCacheBlob`: blob staged into the cache directory -/
  | stage (d : Hash)
  /-- `fi.DeleteObject` on an `OCI.Blob` descriptor -/
  | deleteBlob (d : Hash)
  /-- `deleteRootIndex` -/
  | deleteRoot
  /-- `writeBlobToFileImage(rc, false)`: new content blob appended -/
  | addBlob (d : Hash) (bytes : List Nat)
  /-- `writeBlobToFileImage(rc, true)`: new root-index object written -/
  | setRoot (bytes : List Nat)
deriving DecidableEq, Repr

/-- The SIF file as seen through the store primitives: the `OCI.Blob` objects
(digest and bytes, in file order) and the single `OCI.RootIndex` object. -/
structure Store where
  blobs : List (Hash × List Nat)
  root : Option (List Nat)
deriving DecidableEq, Repr

/-- The digests of a store's content blobs (`sifBlobs` in `update.go`). -/
def Store.blobDigests (s : Store) : List Hash :=
  s.blobs.map Prod.fst

/-- The loop of `cacheImageBlobs` over `im.Layers()`: each layer's digest is
fetched; a digest in `skipDigests` is appended to `skipped`, otherwise the
compressed content is staged and the digest appended to `cached`. -/
def cacheImageLayers (skip : List Hash) :
    List Layer → CacheMap →
    Except GoErr (List Hash × List Hash × CacheMap × List StoreOp)
  | [], cache => .ok ([], [], cache, [])
  | l :: rest, cache =>
    match l.digestRes with
    | .error e => .error e
    | .ok ld =>
      if skip.contains ld then
        match cacheImageLayers skip rest cache with
        | .error e => .error e
        | .ok (c, s, cache', ops) => .ok (c, ld :: s, cache', ops)
      else
        match cacheImageLayers skip rest (mapInsert cache ld l.content) with
        | .error e => .error e
        | .ok (c, s, cache', ops) => .ok (ld :: c, s, cache', .stage ld :: ops)

/-- `cacheImageBlobs(im, skipDigests, cacheDir)`: stage the image's layers (in
manifest order), then its config blob under the manifest's declared config
digest. -/
def cacheImageBlobs (im : ImageT) (skip : List Hash) (cache : CacheMap) :
    Except GoErr (List Hash × List Hash × CacheMap × List StoreOp) :=
  match im.layersRes with
  | .error e => .error e
  | .ok ls =>
    match cacheImageLayers skip ls cache with
    | .error e => .error e
    | .ok (c, s, cache1, ops) =>
      match im.manifestRes with
      | .error e => .error e
      | .ok mf =>
        if skip.contains mf.config.digest then
          .ok (c, s ++ [mf.config.digest], cache1, ops)
        else
          .ok (c ++ [mf.config.digest], s, mapInsert cache1 mf.config.digest im.rawConfig,
            ops ++ [.stage mf.config.digest])

/-- The loop of `cacheIndexBlobs(ii, skipDigests, cacheDir)` over the entries
of `ii.IndexManifest().Manifests`, dispatching on each descriptor's media
type: nested indices recurse children-first and then stage their own raw
manifest; images stage layers and config and then their own manifest; any
other media type is staged directly via `blobFromIndex`.  Every staging is
skipped in favour of the `skipped` ("keep") list when the digest is in
`skipDigests`.  `ii.ImageIndex(d)` / `ii.Image(d)` on a digest that resolves
to an object of the wrong kind fails. -/
def cacheEntries (skip : List Hash) :
    List IdxEntry → CacheMap →
    Except GoErr (List Hash × List Hash × CacheMap × List StoreOp)
  | [], cache => .ok ([], [], cache, [])
  | IdxEntry.idx d raw centries :: rest, cache =>
    if d.mediaType.isIndexKind then
      match cacheEntries skip centries cache with
      | .error e => .error e
      | .ok (cc, cs, cache1, cops) =>
        if skip.contains d.digest then
          match cacheEntries skip rest cache1 with
          | .error e => .error e
          | .ok (rc, rs, cache2, rops) =>
            .ok (cc ++ rc, cs ++ [d.digest] ++ rs, cache2, cops ++ rops)
        else
          match cacheEntries skip rest (mapInsert cache1 d.digest raw) with
          | .error e => .error e
          | .ok (rc, rs, cache2, rops) =>
            .ok (cc ++ [d.digest] ++ rc, cs ++ rs, cache2, cops ++ [.stage d.digest] ++ rops)
    else if d.mediaType.isImageKind then
      .error .kindMismatch
    else
      if skip.contains d.digest then
        match cacheEntries skip rest cache with
        | .error e => .error e
        | .ok (rc, rs, cache2, rops) => .ok (rc, d.digest :: rs, cache2, rops)
      else
        match cacheEntries skip rest (mapInsert cache d.digest raw) with
        | .error e => .error e
        | .ok (rc, rs, cache2, rops) =>
          .ok (d.digest :: rc, rs, cache2, .stage d.digest :: rops)
  | IdxEntry.img d im :: rest, cache =>
    if d.mediaType.isIndexKind then
      .error .kindMismatch
    else if d.mediaType.isImageKind then
      match cacheImageBlobs im skip cache with
      | .error e => .error e
      | .ok (cc, cs, cache1, cops) =>
        if skip.contains d.digest then
          match cacheEntries skip rest cache1 with
          | .error e => .error e
          | .ok (rc, rs, cache2, rops) =>
            .ok (cc ++ rc, cs ++ [d.digest] ++ rs, cache2, cops ++ rops)
        else
          match cacheEntries skip rest (mapInsert cache1 d.digest im.rawManifest) with
          | .error e => .error e
          | .ok (rc, rs, cache2, rops) =>
            .ok (cc ++ [d.digest] ++ rc, cs ++ rs, cache2, cops ++ [.stage d.digest] ++ rops)
    else
      if skip.contains d.digest then
        match cacheEntries skip rest cache with
        | .error e => .error e
        | .ok (rc, rs, cache2, rops) => .ok (rc, d.digest :: rs, cache2, rops)
      else
        match cacheEntries skip rest (mapInsert cache d.digest im.rawManifest) with
        | .error e => .error e
        | .ok (rc, rs, cache2, rops) =>
          .ok (d.digest :: rc, rs, cache2, .stage d.digest :: rops)
  | IdxEntry.blob d content :: rest, cache =>
    if d.mediaType.isIndexKind then
      .error .kindMismatch
    else if d.mediaType.isImageKind then
      .error .kindMismatch
    else
      if skip.contains d.digest then
        match cacheEntries skip rest cache with
        | .error e => .error e
        | .ok (rc, rs, cache2, rops) => .ok (rc, d.digest :: rs, cache2, rops)
      else
        match cacheEntries skip rest (mapInsert cache d.digest content) with
        | .error e => .error e
        | .ok (rc, rs, cache2, rops) =>
          .ok (d.digest :: rc, rs, cache2, .stage d.digest :: rops)

/-- `cacheIndexBlobs(ii, skipDigests, cacheDir)`. -/
def cacheIndexBlobs (ii : ImageIndexT) (skip : List Hash) (cache : CacheMap) :
    Except GoErr (List Hash × List Hash × CacheMap × List StoreOp) :=
  cacheEntries skip ii.entries cache

/-- `deleteBlobsExcept(fi, keepDigests)`: walk the store's blob objects in
order, keeping those whose digest is in `keepDigests` and deleting the rest;
returns the surviving blobs and the deletion events. -/
def deleteBlobsExceptM (keep : List Hash) :
    List (Hash × List Nat) → List (Hash × List Nat) × List StoreOp
  | [] => ([], [])
  | b :: rest =>
    let r := deleteBlobsExceptM keep rest
    if keep.contains b.1 then (b :: r.1, r.2) else (r.1, .deleteBlob b.1 :: r.2)

/-- The final loop of `Update`: for each digest in `cachedBlobs`, read its
staged file (`readCacheBlob`) and append it as a new content blob.
Modelled from the spec: `fileImage.writeBlobToFileImage` (repository code not
under `src/`) creates a new digest-addressed content-blob object from a byte
stream, so the digest recorded in the store is the hash of the written
bytes. -/
def addBlobsLoop (env : Env) (cache : CacheMap) :
    List Hash → Store → Except GoErr Unit × Store × List StoreOp
  | [], s => (.ok (), s, [])
  | d :: rest, s =>
    match mapLookup cache d with
    | none => (.error .cacheMiss, s, [])
    | some bytes =>
      let s' : Store := { s with blobs := s.blobs ++ [(env.hashBytes bytes, bytes)] }
      match addBlobsLoop env cache rest s' with
      | (res, s2, ops) => (res, s2, .addBlob (env.hashBytes bytes) bytes :: ops)

/-- The option-application loop at the top of `Update`: each `UpdateOpt` may
fail.  (The only recognized option chooses the staging directory, which has no
observable effect in this model, so an option is just its result.) -/
def applyOpts : List (Except GoErr Unit) → Except GoErr Unit
  | [] => .ok ()
  | .error e :: _ => .error e
  | .ok _ :: rest => applyOpts rest

/-- `Update(fi, ii, opts...)`.  Returns the call's result together with the
store as left by the call and the trace of staging / store-mutation events in
program order.
Modelled from the spec: `ImageIndexFromFileImage` (repository code not under
`src/`) reads the store's root-index object, whose digest is the hash of its
bytes; the store primitives (`GetDescriptors`, `DeleteObject`, …) are the
external SIF collaborators. -/
def Update (env : Env) (store : Store) (ii : ImageIndexT)
    (opts : List (Except GoErr Unit)) : Except GoErr Unit × Store × List StoreOp :=
  match applyOpts opts with
  | .error e => (.error e, store, [])
  | .ok _ =>
    match store.root with
    | none => (.error .noRootIndex, store, [])
    | some rootBytes =>
      if env.hashBytes rootBytes = ii.digest then (.ok (), store, [])
      else
        match cacheIndexBlobs ii (store.blobDigests) [] with
        | .error e => (.error e, store, [])
        | .ok (cached, keep, cache, stageOps) =>
          let ri := ii.raw
          let kept := (deleteBlobsExceptM keep store.blobs).1
          let delOps := (deleteBlobsExceptM keep store.blobs).2
          let s1 : Store := { store with blobs := kept }
          match s1.root with
          | none => (.error .noRootIndex, s1, stageOps ++ delOps)
          | some _ =>
            let s2 : Store := { s1 with root := none }
            match addBlobsLoop env cache cached s2 with
            | (.error e, s3, addOps) =>
              (.error e, s3, stageOps ++ delOps ++ [.deleteRoot] ++ addOps)
            | (.ok _, s3, addOps) =>
              (.ok (), { s3 with root := some ri },
                stageOps ++ delOps ++ [.deleteRoot] ++ addOps ++ [.setRoot ri])

/-- The content-blob digests one image contributes (its layers and its
config), reading the fallible accessors with a default that coincides with
the real value whenever the accessors succeed. -/
def imageReach (im : ImageT) : List Hash :=
  ((im.layersRes.toOption.getD []).map fun l => l.digestRes.toOption.getD 0) ++
    [(im.manifestRes.toOption.getD default).config.digest]

/-- The set (as a list) of content-blob digests transitively reachable from a
list of index entries, following the spec's words: for a nested index its
children's reachable digests and the index's own digest; for an image its
layer digests, its config digest and its manifest digest; for any other entry
its digest. -/
def reachableDigests : List IdxEntry → List Hash
  | [] => []
  | IdxEntry.idx d _ centries :: rest =>
    reachableDigests centries ++ [d.digest] ++ reachableDigests rest
  | IdxEntry.img d im :: rest =>
    imageReach im ++ [d.digest] ++ reachableDigests rest
  | IdxEntry.blob d _ :: rest => d.digest :: reachableDigests rest

/-- Content-addressing well-formedness of the layers of one image: every
layer's digest is defined and equals the hash of its compressed content. -/
def wfLayers (env : Env) : List Layer → Bool
  | [] => true
  | l :: rest => l.digestRes == .ok (env.hashBytes l.content) && wfLayers env rest

/-- Content-addressing well-formedness of one image: its layer list and
manifest are readable, its layers are well-formed, and its config descriptor
digest is the hash of its raw config bytes. -/
def wfImage (env : Env) (im : ImageT) : Bool :=
  (match im.layersRes with
    | .ok ls => wfLayers env ls
    | .error _ => false) &&
  (match im.manifestRes with
    | .ok mf => mf.config.digest == env.hashBytes im.rawConfig
    | .error _ => false)

/-- Content-addressing well-formedness of an index entry tree: every
descriptor's media type matches the kind of object its digest resolves to,
every digest is the hash of the object's bytes, and every image is
well-formed. -/
def wfEntries (env : Env) : List IdxEntry → Bool
  | [] => true
  | IdxEntry.idx d raw centries :: rest =>
    d.mediaType.isIndexKind && (d.digest == env.hashBytes raw) &&
      wfEntries env centries && wfEntries env rest
  | IdxEntry.img d im :: rest =>
    d.mediaType.isImageKind && (d.digest == env.hashBytes im.rawManifest) &&
      wfImage env im && wfEntries env rest
  | IdxEntry.blob d content :: rest =>
    !d.mediaType.isIndexKind && !d.mediaType.isImageKind &&
      (d.digest == env.hashBytes content) && wfEntries env rest

/-- The cache directory is digest-consistent: every staged file's bytes hash
back to the digest it is filed under. -/
def cacheWf (env : Env) (m : CacheMap) : Prop :=
  ∀ k b, mapLookup m k = some b → env.hashBytes b = k

/-- One heap evolves from another without disturbing any pre-existing cell:
cells are only appended or written above the old length. -/
def HeapPrefix (hp hp' : Heap) : Prop :=
  hp.configs.length ≤ hp'.configs.length ∧
  hp.manifests.length ≤ hp'.manifests.length ∧
  (∀ j, j < hp.configs.length → hp'.configs[j]? = hp.configs[j]?) ∧
  (∀ j, j < hp.manifests.length → hp'.manifests[j]? = hp.manifests[j]?)

instance : Inhabited Descriptor := ⟨⟨.other 0, 0, 0, none⟩⟩

/-- The descriptor `partial.Descriptor` yields for a layer, read with a
default (coincides with the real result whenever the call succeeds). -/
def descOfD (l : Layer) : Descriptor := (layerDescriptor l).toOption.getD default

/-- A layer's diff-ID, read with a default (coincides with the real result
whenever `DiffID()` succeeds). -/
def diffOfD (l : Layer) : Hash := l.diffIDRes.toOption.getD 0

/-- Fold of Go map insertions. -/
def insertAll {β : Type} (m : List (Hash × β)) : List (Hash × β) → List (Hash × β)
  | [] => m
  | (k, v) :: rest => insertAll (mapInsert m k v) rest

/-- Invariants of one leg of the blob-cache walk relative to the skip list:
kept digests come from the skip list, cached digests never do, the cache only
grows, every cached digest is staged, staging preserves one-file-per-digest,
and the staging events are exactly one per cached digest in order. -/
def WalkOk (skip : List Hash) (cache : CacheMap) (c s : List Hash)
    (cache' : CacheMap) (ops : List StoreOp) : Prop :=
  (∀ d, d ∈ s → d ∈ skip) ∧ (∀ d, d ∈ c → d ∉ skip) ∧
  (∀ k, (mapLookup cache k).isSome → (mapLookup cache' k).isSome) ∧
  (∀ d, d ∈ c → (mapLookup cache' d).isSome) ∧
  ((cache.map Prod.fst).Nodup → (cache'.map Prod.fst).Nodup) ∧
  ops = c.map StoreOp.stage

/-- Reachability bookkeeping of one leg of the walk: the digests it is
responsible for are exactly those it cached or kept, and staging preserves
digest-consistency of the cache directory. -/
def WalkReach (env : Env) (reach : List Hash) (cache : CacheMap) (c s : List Hash)
    (cache' : CacheMap) : Prop :=
  (∀ d, d ∈ reach ↔ (d ∈ c ∨ d ∈ s)) ∧ (cacheWf env cache → cacheWf env cache')

/-! ## Concrete instances used by closed witnesses and counterexamples -/

/-- A concrete deterministic environment for closed evaluations. -/
def cEnv : Env :=
  { hashBytes := fun b => b.foldl (fun a x => 2 * a + x + 3) 1
    marshalConfig := fun c => .ok (c.diffIDs ++ [c.meta])
    sha256 := fun b => .ok (b.foldl (· + ·) 1000, b.length) }

/-- A concrete base layer. -/
def cL0 : Layer :=
  { digestRes := .ok 50, diffIDRes := .ok 60, sizeRes := .ok 1,
    mediaType := .other 0, content := [1] }

/-- A second concrete base layer. -/
def cL1 : Layer :=
  { digestRes := .ok 51, diffIDRes := .ok 61, sizeRes := .ok 2,
    mediaType := .other 0, content := [2] }

/-- A concrete replacement layer. -/
def cLnew : Layer :=
  { digestRes := .ok 52, diffIDRes := .ok 62, sizeRes := .ok 3,
    mediaType := .other 0, content := [3] }

/-- A concrete heap holding the base image's manifest (cell 0) and config
file (cell 0). -/
def cHeap : Heap :=
  { manifests := [{ layers := [],
                    config := { mediaType := .other 1, digest := 7, size := 2, data := none } }],
    configs := [{ diffIDs := [60, 61], history := [], meta := 9 }] }

/-- A concrete base image with two layers. -/
def cBase : BaseImage :=
  { cfgRes := .ok 0, manRes := .ok 0, layersRes := .ok [cL0, cL1] }

/-- A lazy image over `cBase` whose override list is shorter (length 1) than
the base layer count (2). -/
def cImgShort : LazyImage :=
  { base := cBase, overrides := [none], history := none, computed := false,
    diffIDs := [], byDiffID := [], byDigest := [], manifestRef := none, configRef := none }

/-- A lazy image over `cBase` overriding layer 0 with `cLnew`. -/
def cImgSub : LazyImage :=
  { cImgShort with overrides := [some cLnew, none] }

/-- A lazy image whose base fails on `ConfigFile()`. -/
def cImgFail : LazyImage :=
  { cImgShort with
      base := { cBase with cfgRes := .error (.generic 3) }, overrides := [none, none] }

/-- A concrete layer blob (spec example's `B`), content-addressed by `cEnv`. -/
def cBlobLayer : Layer :=
  { digestRes := .ok (cEnv.hashBytes [9]), diffIDRes := .ok 0, sizeRes := .ok 1,
    mediaType := .other 0, content := [9] }

/-- A concrete well-formed image whose layer is `cBlobLayer` (spec example's
`D` is its config blob). -/
def cIm : ImageT :=
  { layersRes := .ok [cBlobLayer],
    manifestRes := .ok
      { layers := [],
        config := { mediaType := .other 2, digest := cEnv.hashBytes [8], size := 1, data := none } },
    rawManifest := [7], rawConfig := [8] }

/-- The entry pointing at `cIm`. -/
def cEntryIm : IdxEntry :=
  IdxEntry.img
    { mediaType := .ociManifestSchema1, digest := cEnv.hashBytes [7], size := 1, data := none }
    cIm

/-- A nested index (spec example's `E`) containing `cIm`. -/
def cEntryE : IdxEntry :=
  IdxEntry.idx
    { mediaType := .ociImageIndex, digest := cEnv.hashBytes [6], size := 1, data := none }
    [6] [cEntryIm]

/-- A concrete well-formed target index (spec example's `R2 → E → {B, D}`). -/
def cR2 : ImageIndexT := { entries := [cEntryE], raw := [5], digest := cEnv.hashBytes [5] }

/-- A concrete stale store: blobs `A = 100`, `B`, `C = 101` and an old root. -/
def cStore : Store :=
  { blobs := [(100, [10]), (cEnv.hashBytes [9], [9]), (101, [11])], root := some [4] }

/-- The store `cStore` should become after `Update` against `cR2`. -/
def cStoreAfter : Store :=
  { blobs := [(cEnv.hashBytes [9], [9]), (cEnv.hashBytes [8], [8]),
              (cEnv.hashBytes [7], [7]), (cEnv.hashBytes [6], [6])],
    root := some [5] }

/-- The operation trace of that `Update` call. -/
def cTrace : List StoreOp :=
  [.stage (cEnv.hashBytes [8]), .stage (cEnv.hashBytes [7]), .stage (cEnv.hashBytes [6]),
   .deleteBlob 100, .deleteBlob 101, .deleteRoot,
   .addBlob (cEnv.hashBytes [8]) [8], .addBlob (cEnv.hashBytes [7]) [7],
   .addBlob (cEnv.hashBytes [6]) [6], .setRoot [5]]

/-- An empty (well-formed) target index. -/
def cIdx0 : ImageIndexT := { entries := [], raw := [5], digest := cEnv.hashBytes [5] }

/-- A store whose root-index bytes already match `cIdx0` but which holds an
unreferenced blob (77). -/
def cStoreStale : Store := { blobs := [(77, [1])], root := some [5] }

/-- A store whose root-index bytes already match `cR2`'s digest. -/
def cStoreSC : Store := { blobs := [(77, [1, 2])], root := some [5] }

/-- An index entry for an other-kind content blob with digest 7. -/
def cDupEntry : IdxEntry :=
  IdxEntry.blob { mediaType := .other 0, digest := 7, size := 1, data := none } [4]

/-- A target index reaching the same digest-7 blob from two entries. -/
def cDup : ImageIndexT :=
  { entries := [cDupEntry, cDupEntry], raw := [9], digest := cEnv.hashBytes [9] }

/-! ## Helper lemmas: maps and lists -/

theorem mapLookup_filter_ne {β : Type} (m : List (Hash × β)) (k k' : Hash) (h : k' ≠ k) :
    mapLookup (m.filter fun p => p.1 != k) k' = mapLookup m k' := by
  induction m with
  | nil => rfl
  | cons p rest ih =>
    rcases p with ⟨pk, pv⟩
    by_cases hp : pk = k
    · subst hp
      simp [List.filter_cons, mapLookup, h, ih]
    · simp only [List.filter_cons]
      rw [if_pos (by simp [hp])]
      by_cases hk : k' = pk
      · simp [mapLookup, hk]
      · simp [mapLookup, hk, ih]

theorem mapLookup_insert {β : Type} (m : List (Hash × β)) (k k' : Hash) (v : β) :
    mapLookup (mapInsert m k v) k' = if k' = k then some v else mapLookup m k' := by
  unfold mapInsert
  by_cases h : k' = k
  · simp [mapLookup, h]
  · rw [if_neg h]
    simp only [mapLookup, if_neg h]
    exact mapLookup_filter_ne m k k' h

theorem mapLookup_insert_isSome {β : Type} (m : List (Hash × β)) (k k' : Hash) (v : β)
    (h : (mapLookup m k').isSome) : (mapLookup (mapInsert m k v) k').isSome := by
  rw [mapLookup_insert]
  by_cases hk : k' = k <;> simp [hk, h]

theorem mapInsert_keys_nodup {β : Type} (m : List (Hash × β)) (k : Hash) (v : β)
    (h : (m.map Prod.fst).Nodup) : ((mapInsert m k v).map Prod.fst).Nodup := by
  unfold mapInsert
  simp only [List.map_cons, List.nodup_cons]
  constructor
  · intro hk
    rcases List.mem_map.mp hk with ⟨p, hp, hpk⟩
    rcases List.mem_filter.mp hp with ⟨-, hne⟩
    simp [hpk] at hne
  · exact h.sublist ((List.filter_sublist m).map Prod.fst)

theorem getq_append_lt {α : Type} (l l' : List α) (j : Nat) (h : j < l.length) :
    (l ++ l')[j]? = l[j]? := by
  induction l generalizing j with
  | nil => simp at h
  | cons a rest ih =>
    cases j with
    | zero => simp
    | succ n =>
      simp only [List.cons_append, List.getElem?_cons_succ]
      exact ih n (Nat.lt_of_succ_lt_succ h)

theorem getq_set_ne {α : Type} (l : List α) (i j : Nat) (v : α) (h : i ≠ j) :
    (l.set i v)[j]? = l[j]? := by
  induction l generalizing i j with
  | nil => simp
  | cons a rest ih =>
    cases i with
    | zero =>
      cases j with
      | zero => exact absurd rfl h
      | succ n => simp [List.set]
    | succ m =>
      cases j with
      | zero => simp [List.set]
      | succ n =>
        simp only [List.set, List.getElem?_cons_succ]
        exact ih m n (fun hc => h (by rw [hc]))

theorem getq_append_self {α : Type} (l : List α) (x : α) :
    (l ++ [x])[l.length]? = some x := by
  induction l with
  | nil => simp
  | cons a rest ih => simp [ih]

theorem set_append_self {α : Type} (l : List α) (x y : α) :
    (l ++ [x]).set l.length y = l ++ [y] := by
  induction l with
  | nil => simp
  | cons a rest ih => simp [List.set, ih]

theorem getD_append_self {α : Type} [Inhabited α] (l : List α) (x : α) :
    (l ++ [x]).getD l.length default = x := by
  simp [List.getD, getq_append_self]

/-! ## Lemmas about `populate` -/

theorem populate_computed (env : Env) (hp : Heap) (img : LazyImage)
    (h : img.computed = true) : populate env hp img = (.ok (), hp, img) := by
  unfold populate
  simp [h]

theorem populate_err_frame (env : Env) (hp : Heap) (img : LazyImage) (e : GoErr)
    (hp' : Heap) (img' : LazyImage)
    (h : populate env hp img = (.error e, hp', img')) : img' = img := by
  unfold populate at h
  iterate 10
    all_goals try dsimp only at h
    all_goals try split at h
  all_goals simp_all

theorem heapPrefix_refl (hp : Heap) : HeapPrefix hp hp :=
  ⟨Nat.le_refl _, Nat.le_refl _, fun _ _ => rfl, fun _ _ => rfl⟩

theorem heapPrefix_trans {h1 h2 h3 : Heap} (a : HeapPrefix h1 h2) (b : HeapPrefix h2 h3) :
    HeapPrefix h1 h3 := by
  obtain ⟨a1, a2, a3, a4⟩ := a
  obtain ⟨b1, b2, b3, b4⟩ := b
  exact ⟨Nat.le_trans a1 b1, Nat.le_trans a2 b2,
    fun j hj => (b3 j (Nat.lt_of_lt_of_le hj a1)).trans (a3 j hj),
    fun j hj => (b4 j (Nat.lt_of_lt_of_le hj a2)).trans (a4 j hj)⟩

theorem populate_heapPrefix (env : Env) (hp : Heap) (img : LazyImage) :
    HeapPrefix hp (populate env hp img).2.1 := by
  unfold populate
  iterate 10
    all_goals try dsimp only
    all_goals try split
  all_goals try exact heapPrefix_refl hp
  all_goals
    try simp only [heapSetConfig, heapSetManifest, set_append_self]
    refine ⟨?_, ?_, fun j hj => ?_, fun j hj => ?_⟩ <;>
      first
        | rfl
        | exact getq_append_lt _ _ j hj
        | (simp only [List.length_append, List.length_cons]; omega)

theorem populate_heapPrefix_res (env : Env) (hp : Heap) (img : LazyImage)
    (res : Except GoErr Unit) (hp' : Heap) (img' : LazyImage)
    (h : populate env hp img = (res, hp', img')) : HeapPrefix hp hp' := by
  have := populate_heapPrefix env hp img
  rw [h] at this
  exact this

theorem layerByDiffID_state (env : Env) (hp : Heap) (img : LazyImage) (d : Hash) :
    (layerByDiffID env hp img d).2 = (populate env hp img).2 := by
  unfold layerByDiffID
  rcases hres : populate env hp img with ⟨res, hp', img'⟩
  cases res with
  | error e => simp
  | ok u => cases h2 : mapLookup img'.byDiffID d <;> simp [h2]

theorem layerByDigest_state (env : Env) (hp : Heap) (img : LazyImage) (d : Hash) :
    (layerByDigest env hp img d).2 = (populate env hp img).2 := by
  unfold layerByDigest
  rcases hres : populate env hp img with ⟨res, hp', img'⟩
  cases res with
  | error e => simp
  | ok u => cases h2 : mapLookup img'.byDigest d <;> simp [h2]

theorem manifestAccessor_state (env : Env) (hp : Heap) (img : LazyImage) :
    (manifestAccessor env hp img).2 = (populate env hp img).2 := by
  unfold manifestAccessor
  rcases hres : populate env hp img with ⟨res, hp', img'⟩
  cases res <;> simp

theorem configFileAccessor_state (env : Env) (hp : Heap) (img : LazyImage) :
    (configFileAccessor env hp img).2 = (populate env hp img).2 := by
  unfold configFileAccessor
  rcases hres : populate env hp img with ⟨res, hp', img'⟩
  cases res <;> simp

theorem layersLoop_heapPrefix (env : Env) :
    ∀ (ds : List Hash) (hp : Heap) (img : LazyImage),
    HeapPrefix hp (layersLoop env hp img ds).2.1 := by
  intro ds
  induction ds with
  | nil => intro hp img; exact heapPrefix_refl hp
  | cons d rest ih =>
    intro hp img
    have h1 : HeapPrefix hp (layerByDiffID env hp img d).2.1 := by
      rw [layerByDiffID_state]; exact populate_heapPrefix env hp img
    unfold layersLoop
    rcases hres : layerByDiffID env hp img d with ⟨res, hp', img'⟩
    rw [hres] at h1
    dsimp only at h1
    cases res with
    | error e => exact h1
    | ok l =>
      have h2 := ih hp' img'
      rcases hres2 : layersLoop env hp' img' rest with ⟨res2, hp2, img2⟩
      rw [hres2] at h2
      dsimp only at h2
      dsimp only
      rw [hres2]
      cases res2 <;> exact heapPrefix_trans h1 h2

theorem runAccessor_heapPrefix (env : Env) (a : Accessor) (hp : Heap) (img : LazyImage) :
    HeapPrefix hp (runAccessor env a hp img).1 := by
  cases a with
  | manifestA =>
    unfold runAccessor
    rw [manifestAccessor_state]
    exact populate_heapPrefix env hp img
  | configFileA =>
    unfold runAccessor
    rw [configFileAccessor_state]
    exact populate_heapPrefix env hp img
  | layersA =>
    unfold runAccessor layersAccessor
    have h1 := populate_heapPrefix env hp img
    rcases hres : populate env hp img with ⟨res, hp', img'⟩
    rw [hres] at h1
    cases res with
    | error e => exact h1
    | ok u =>
      exact heapPrefix_trans h1 (layersLoop_heapPrefix env img'.diffIDs hp' img')
  | layerByDigestA d =>
    unfold runAccessor
    dsimp only
    rw [layerByDigest_state]
    exact populate_heapPrefix env hp img
  | layerByDiffIDA d =>
    unfold runAccessor
    dsimp only
    rw [layerByDiffID_state]
    exact populate_heapPrefix env hp img

theorem populate_ok_char (env : Env) (hp : Heap) (img : LazyImage) (hp' : Heap)
    (img' : LazyImage) (hc : img.computed = false)
    (h : populate env hp img = (.ok (), hp', img')) :
    ∃ cfgB manB ls layersAcc diffIDs byDiff byDig,
      img.base.cfgRes = .ok cfgB ∧ img.base.manRes = .ok manB ∧
      img.base.layersRes = .ok ls ∧
      buildLayerData ls img.overrides = .ok (layersAcc, diffIDs, byDiff, byDig) ∧
      img' =
        { img with
            computed := true, diffIDs := diffIDs, byDiffID := byDiff,
            byDigest := byDig, manifestRef := some hp.manifests.length,
            configRef := some hp.configs.length } ∧
      (hp'.configs.getD hp.configs.length default).diffIDs = diffIDs ∧
      (img.history = none →
        (hp'.configs.getD hp.configs.length default).history =
          (hp.configs.getD cfgB default).history) ∧
      (∀ hrec, img.history = some hrec →
        (hp'.configs.getD hp.configs.length default).history = [hrec]) := by
  unfold populate at h
  rw [if_neg (by simp [hc])] at h
  iterate 8
    all_goals try dsimp only at h
    all_goals try split at h
  all_goals cases h
  all_goals
    refine ⟨_, _, _, _, _, _, _, by assumption, by assumption, by assumption,
      by assumption, rfl, ?_, ?_, ?_⟩ <;>
      simp_all [heapSetConfig, heapSetManifest, set_append_self, getD_append_self]

theorem insertAll_lookup_notMem {β : Type} (ps : List (Hash × β)) :
    ∀ (m : List (Hash × β)) (k : Hash), k ∉ ps.map Prod.fst →
    mapLookup (insertAll m ps) k = mapLookup m k := by
  induction ps with
  | nil => intro m k _; rfl
  | cons p rest ih =>
    intro m k hk
    rcases p with ⟨pk, pv⟩
    simp only [List.map_cons, List.mem_cons, not_or] at hk
    unfold insertAll
    rw [ih (mapInsert m pk pv) k hk.2, mapLookup_insert, if_neg hk.1]

theorem insertAll_lookup_self {β : Type} (f : β → Hash) (effs : List β) :
    ∀ (m : List (Hash × β)), (effs.map f).Nodup →
    ∀ l ∈ effs, mapLookup (insertAll m (effs.map fun x => (f x, x))) (f l) = some l := by
  induction effs with
  | nil => intro m _ l hl; simp at hl
  | cons x rest ih =>
    intro m hnd l hl
    simp only [List.map_cons, List.nodup_cons] at hnd
    rcases List.mem_cons.mp hl with hx | hrest
    · subst hx
      have hnotin : f l ∉ (rest.map fun x => (f x, x)).map Prod.fst := by
        simpa using hnd.1
      simp only [List.map_cons, insertAll]
      rw [insertAll_lookup_notMem _ _ _ hnotin, mapLookup_insert, if_pos rfl]
    · exact ih (mapInsert m (f x) x) hnd.2 l hrest

theorem buildAux_char (ls : List Layer) :
    ∀ (ovs : List (Option Layer)) (i : Nat) (accL : List Descriptor) (accD : List Hash)
      (accM1 accM2 : List (Hash × Layer)) (layersAcc : List Descriptor)
      (diffIDs : List Hash) (byDiff byDig : List (Hash × Layer)),
    buildLayerDataAux ls ovs i accL accD accM1 accM2 = .ok (layersAcc, diffIDs, byDiff, byDig) →
    ∃ effs : List Layer,
      effs.length = ovs.length ∧
      (∀ j (hj : j < ovs.length) (hje : j < effs.length),
        effectiveLayer ls (ovs.get ⟨j, hj⟩) (i + j) = .ok (effs.get ⟨j, hje⟩)) ∧
      (∀ l ∈ effs, l.diffIDRes = .ok (diffOfD l) ∧ layerDescriptor l = .ok (descOfD l)) ∧
      layersAcc = accL ++ effs.map descOfD ∧
      diffIDs = accD ++ effs.map diffOfD ∧
      byDiff = insertAll accM1 (effs.map fun l => (diffOfD l, l)) ∧
      byDig = insertAll accM2 (effs.map fun l => ((descOfD l).digest, l)) := by
  intro ovs
  induction ovs with
  | nil =>
    intro i accL accD accM1 accM2 layersAcc diffIDs byDiff byDig h
    unfold buildLayerDataAux at h
    cases h
    exact ⟨[], by simp, by intro j hj; simp at hj, by simp,
      by simp, by simp, by simp [insertAll], by simp [insertAll]⟩
  | cons o rest ih =>
    intro i accL accD accM1 accM2 layersAcc diffIDs byDiff byDig h
    unfold buildLayerDataAux at h
    rcases heq1 : effectiveLayer ls o i with e | l <;> rw [heq1] at h
    · exact absurd h (by simp)
    dsimp only at h
    rcases heq2 : layerDescriptor l with e | d <;> rw [heq2] at h
    · exact absurd h (by simp)
    dsimp only at h
    rcases heq3 : l.diffIDRes with e | diffID <;> rw [heq3] at h
    · exact absurd h (by simp)
    dsimp only at h
    obtain ⟨effs, hlen, helem, hall, hL, hD, hM1, hM2⟩ :=
      ih (i + 1) (accL ++ [d]) (accD ++ [diffID])
        (mapInsert accM1 diffID l) (mapInsert accM2 d.digest l)
        layersAcc diffIDs byDiff byDig h
    have hdofd : diffOfD l = diffID := by unfold diffOfD; rw [heq3]; rfl
    have hdesc : descOfD l = d := by unfold descOfD; rw [heq2]; rfl
    refine ⟨l :: effs, by simp [hlen], ?_, ?_, ?_, ?_, ?_, ?_⟩
    · intro j hj hje
      cases j with
      | zero => simpa using heq1
      | succ j' =>
        have : i + (j' + 1) = (i + 1) + j' := by omega
        rw [List.get_cons_succ, List.get_cons_succ, this]
        exact helem j' (by simpa using hj) (by simpa using hje)
    · intro x hx
      rcases List.mem_cons.mp hx with hx | hx
      · subst hx
        exact ⟨by rw [hdofd, heq3], by rw [hdesc, heq2]⟩
      · exact hall x hx
    · simp [hL, hdesc]
    · simp [hD, hdofd]
    · simp only [List.map_cons, insertAll, hdofd, hM1]
    · simp only [List.map_cons, insertAll, hdesc, hM2]

theorem layersLoop_of_lookup (env : Env) (hp : Heap) (img : LazyImage)
    (himg : img.computed = true) (f : Layer → Hash) :
    ∀ effs : List Layer, (∀ l ∈ effs, mapLookup img.byDiffID (f l) = some l) →
    layersLoop env hp img (effs.map f) = (.ok effs, hp, img) := by
  intro effs
  induction effs with
  | nil => intro _; rfl
  | cons x rest ih =>
    intro hlk
    have hx := hlk x (List.mem_cons_self x rest)
    have hby : layerByDiffID env hp img (f x) = (.ok x, hp, img) := by
      unfold layerByDiffID
      rw [populate_computed env hp img himg]
      dsimp only
      rw [hx]
    simp only [List.map_cons]
    unfold layersLoop
    rw [hby]
    dsimp only
    rw [ih (fun l hl => hlk l (List.mem_cons_of_mem x hl))]

/-- C6: for every base image and index `i0`, building a lazy image that
overrides layer `i0` with layer `L` (all other override slots empty) yields
`Layers()` equal to the base layer list with position `i0` replaced by `L`
(so `Layers()[i0] = L` and every other position is unchanged),
`ConfigFile().RootFS.DiffIDs[i0]` equal to `L`'s diff-ID with every other
position unchanged from the base config, and `LayerByDiffID(L.DiffID())` and
`LayerByDigest(L.Digest())` both resolving to `L`.  (Hypotheses: the base is
consistent — its config diff-ID list matches its layers — the effective
diff-IDs and digests are collision-free as the spec assumes, and the
compute-once pass succeeds.) -/
theorem lazy_layer_substitution
    (env : Env) (hp : Heap) (img : LazyImage) (hp' : Heap) (img' : LazyImage)
    (ls : List Layer) (L : Layer) (i0 : Nat) (dL gL : Hash) (cfgB : Nat)
    (hc : img.computed = false)
    (hcfgB : img.base.cfgRes = .ok cfgB)
    (hls : img.base.layersRes = .ok ls)
    (hi0 : i0 < ls.length)
    (hlen : img.overrides.length = ls.length)
    (hovI : img.overrides[i0]? = some (some L))
    (hovN : ∀ j, j < img.overrides.length → j ≠ i0 → img.overrides[j]? = some none)
    (hdL : L.diffIDRes = .ok dL)
    (hgL : L.digestRes = .ok gL)
    (hndDiff : ((ls.set i0 L).map diffOfD).Nodup)
    (hndDig : ((ls.set i0 L).map fun l => (descOfD l).digest).Nodup)
    (hbaseCfg : (hp.configs.getD cfgB default).diffIDs = ls.map diffOfD)
    (hpop : populate env hp img = (.ok (), hp', img')) :
    layersAccessor env hp img = (.ok (ls.set i0 L), hp', img') ∧
    (ls.set i0 L)[i0]? = some L ∧
    (∀ j, j ≠ i0 → (ls.set i0 L)[j]? = ls[j]?) ∧
    img'.configRef = some hp.configs.length ∧
    (hp'.configs.getD hp.configs.length default).diffIDs = (ls.set i0 L).map diffOfD ∧
    ((hp'.configs.getD hp.configs.length default).diffIDs)[i0]? = some dL ∧
    (∀ j, j ≠ i0 →
      ((hp'.configs.getD hp.configs.length default).diffIDs)[j]? =
        ((hp.configs.getD cfgB default).diffIDs)[j]?) ∧
    layerByDiffID env hp img dL = (.ok L, hp', img') ∧
    layerByDigest env hp img gL = (.ok L, hp', img') := by
  obtain ⟨cfgB', manB, ls', layersAcc, diffIDs, byDiff, byDig, hcfg', hman', hls',
    hbuild, himg', hcell, hhistN, hhistS⟩ := populate_ok_char env hp img hp' img' hc hpop
  rw [hls] at hls'
  injection hls' with hlseq
  subst hlseq
  rw [hcfgB] at hcfg'
  injection hcfg' with hcfgBeq
  subst hcfgBeq
  unfold buildLayerData at hbuild
  obtain ⟨effs, hlen2, helem, hall, hL, hD, hM1, hM2⟩ :=
    buildAux_char ls img.overrides 0 [] [] [] [] _ _ _ _ hbuild
  simp only [List.nil_append] at hL hD
  have hlenE : effs.length = ls.length := by rw [hlen2, hlen]
  have heffs : effs = ls.set i0 L := by
    apply List.ext_get (by simpa using hlenE)
    intro j h1 h2
    have hjls : j < ls.length := by simpa using h2
    have hjov : j < img.overrides.length := by rw [hlen]; exact hjls
    have he := helem j hjov h1
    by_cases hji : j = i0
    · subst hji
      have hget : img.overrides.get ⟨j, hjov⟩ = some L := by
        have h3 := List.getElem?_eq_getElem hjov
        rw [hovI] at h3
        simpa [List.get_eq_getElem] using h3.symm
      rw [hget] at he
      unfold effectiveLayer at he
      have : L = effs.get ⟨j, h1⟩ := Except.ok.inj he
      rw [← this, List.get_eq_getElem, List.getElem_set_self (by simpa using h2)]
    · have hget : img.overrides.get ⟨j, hjov⟩ = none := by
        have h3 := List.getElem?_eq_getElem hjov
        rw [hovN j hjov hji] at h3
        simpa [List.get_eq_getElem] using h3.symm
      rw [hget] at he
      unfold effectiveLayer at he
      rw [Nat.zero_add, List.getElem?_eq_getElem hjls] at he
      have : ls[j] = effs.get ⟨j, h1⟩ := Except.ok.inj he
      rw [← this, List.get_eq_getElem, List.getElem_set_ne (fun hc2 => hji hc2.symm)]
  have hmemL : L ∈ effs := by
    rw [heffs]
    exact List.getElem?_mem (List.getElem?_set_self (by simpa using hi0))
  have hdofL : diffOfD L = dL := by unfold diffOfD; rw [hdL]; rfl
  have hdigL : (descOfD L).digest = gL := by
    obtain ⟨-, hdescL⟩ := hall L hmemL
    unfold layerDescriptor at hdescL
    rw [hgL] at hdescL
    rcases hsz : L.sizeRes with e | s <;> rw [hsz] at hdescL
    · exact absurd hdescL (by simp)
    · dsimp only at hdescL
      have := Except.ok.inj hdescL
      rw [← this]
  have hcomputed : img'.computed = true := by rw [himg']
  have hbyDiff : img'.byDiffID = insertAll [] (effs.map fun l => (diffOfD l, l)) := by
    rw [himg']; exact hM1
  have hbyDig : img'.byDigest = insertAll [] (effs.map fun l => ((descOfD l).digest, l)) := by
    rw [himg']; exact hM2
  have hndDiffE : (effs.map diffOfD).Nodup := by rw [heffs]; exact hndDiff
  have hndDigE : (effs.map fun l => (descOfD l).digest).Nodup := by rw [heffs]; exact hndDig
  have hlkDiff : ∀ l ∈ effs, mapLookup img'.byDiffID (diffOfD l) = some l := by
    intro l hl
    rw [hbyDiff]
    exact insertAll_lookup_self diffOfD effs [] hndDiffE l hl
  have hlkDig : ∀ l ∈ effs, mapLookup img'.byDigest ((descOfD l).digest) = some l := by
    intro l hl
    rw [hbyDig]
    exact insertAll_lookup_self (fun l => (descOfD l).digest) effs [] hndDigE l hl
  have hdiffIDs' : img'.diffIDs = effs.map diffOfD := by rw [himg']; exact hD
  refine ⟨?_, ?_, ?_, ?_, ?_, ?_, ?_, ?_, ?_⟩
  · unfold layersAccessor
    rw [hpop]
    dsimp only
    rw [hdiffIDs', layersLoop_of_lookup env hp' img' hcomputed diffOfD effs hlkDiff, heffs]
  · exact List.getElem?_set_self (by simpa using hi0)
  · intro j hj
    exact List.getElem?_set_ne (fun hc2 => hj hc2.symm)
  · rw [himg']
  · rw [hcell, hD, heffs]
  · rw [hcell, hD, heffs]
    rw [List.getElem?_map, List.getElem?_set_self (by simpa using hi0)]
    simp [hdofL]
  · intro j hj
    rw [hcell, hD, heffs, hbaseCfg]
    rw [List.getElem?_map, List.getElem?_map,
      List.getElem?_set_ne (fun hc2 => hj hc2.symm)]
  · unfold layerByDiffID
    rw [hpop]
    dsimp only
    rw [← hdofL, hlkDiff L hmemL]
  · unfold layerByDigest
    rw [hpop]
    dsimp only
    rw [← hdigL, hlkDig L hmemL]

theorem runAccessors_heapPrefix (env : Env) :
    ∀ (as : List Accessor) (hp : Heap) (img : LazyImage),
    HeapPrefix hp (runAccessors env as hp img).1 := by
  intro as
  induction as with
  | nil => intro hp img; exact heapPrefix_refl hp
  | cons a rest ih =>
    intro hp img
    unfold runAccessors
    exact heapPrefix_trans (runAccessor_heapPrefix env a hp img)
      (ih (runAccessor env a hp img).1 (runAccessor env a hp img).2)

/-! ## Lemmas about the blob cache walk -/

theorem walkOk_nil (skip : List Hash) (cache : CacheMap) :
    WalkOk skip cache [] [] cache [] :=
  ⟨by simp, by simp, fun _ hk => hk, by simp, id, rfl⟩

theorem walkOk_skipOne (skip : List Hash) (cache : CacheMap) (dg : Hash)
    (h : dg ∈ skip) : WalkOk skip cache [] [dg] cache [] := by
  refine ⟨?_, by simp, fun _ hk => hk, by simp, id, rfl⟩
  intro d hd
  rw [List.mem_singleton.mp hd]
  exact h

theorem walkOk_stageOne (skip : List Hash) (cache : CacheMap) (dg : Hash)
    (bytes : List Nat) (h : dg ∉ skip) :
    WalkOk skip cache [dg] [] (mapInsert cache dg bytes) [.stage dg] := by
  refine ⟨by simp, ?_, ?_, ?_, ?_, rfl⟩
  · intro d hd
    rw [List.mem_singleton.mp hd]
    exact h
  · intro k hk
    exact mapLookup_insert_isSome cache dg k bytes hk
  · intro d hd
    rw [List.mem_singleton.mp hd, mapLookup_insert, if_pos rfl]
    rfl
  · exact mapInsert_keys_nodup cache dg bytes

theorem walkOk_compose {skip : List Hash} {cache : CacheMap} {c1 s1 : List Hash}
    {cacheMid : CacheMap} {ops1 : List StoreOp} {c2 s2 : List Hash}
    {cache' : CacheMap} {ops2 : List StoreOp}
    (h1 : WalkOk skip cache c1 s1 cacheMid ops1)
    (h2 : WalkOk skip cacheMid c2 s2 cache' ops2) :
    WalkOk skip cache (c1 ++ c2) (s1 ++ s2) cache' (ops1 ++ ops2) := by
  obtain ⟨a1, a2, a3, a4, a5, a6⟩ := h1
  obtain ⟨b1, b2, b3, b4, b5, b6⟩ := h2
  refine ⟨?_, ?_, fun k hk => b3 k (a3 k hk), ?_, fun hnd => b5 (a5 hnd), by simp [a6, b6]⟩
  · intro d hd
    rcases List.mem_append.mp hd with hd | hd
    · exact a1 d hd
    · exact b1 d hd
  · intro d hd
    rcases List.mem_append.mp hd with hd | hd
    · exact a2 d hd
    · exact b2 d hd
  · intro d hd
    rcases List.mem_append.mp hd with hd | hd
    · exact b3 d (a4 d hd)
    · exact b4 d hd

theorem cacheImageLayers_basic (skip : List Hash) :
    ∀ (ls : List Layer) (cache : CacheMap) (c s : List Hash) (cache' : CacheMap)
      (ops : List StoreOp),
    cacheImageLayers skip ls cache = .ok (c, s, cache', ops) →
    WalkOk skip cache c s cache' ops := by
  intro ls
  induction ls with
  | nil =>
    intro cache c s cache' ops h
    unfold cacheImageLayers at h
    cases h
    exact walkOk_nil skip cache
  | cons l rest ih =>
    intro cache c s cache' ops h
    unfold cacheImageLayers at h
    rcases hld : l.digestRes with e | ld <;> rw [hld] at h
    · exact absurd h (by simp)
    dsimp only at h
    by_cases hskip : skip.contains ld = true
    · rw [if_pos hskip] at h
      rcases hrec : cacheImageLayers skip rest cache with e | ⟨rc, rs, rcache, rops⟩ <;>
        rw [hrec] at h
      · exact absurd h (by simp)
      dsimp only at h
      have hw := walkOk_compose (walkOk_skipOne skip cache ld (List.elem_iff.mp hskip))
        (ih cache rc rs rcache rops hrec)
      cases h
      simpa using hw
    · rw [if_neg hskip] at h
      rcases hrec : cacheImageLayers skip rest (mapInsert cache ld l.content) with
        e | ⟨rc, rs, rcache, rops⟩ <;> rw [hrec] at h
      · exact absurd h (by simp)
      dsimp only at h
      have hw := walkOk_compose
        (walkOk_stageOne skip cache ld l.content (fun hm => hskip (List.elem_iff.mpr hm)))
        (ih (mapInsert cache ld l.content) rc rs rcache rops hrec)
      cases h
      simpa using hw

theorem cacheImageBlobs_basic (im : ImageT) (skip : List Hash)
    (cache : CacheMap) (c s : List Hash) (cache' : CacheMap) (ops : List StoreOp)
    (h : cacheImageBlobs im skip cache = .ok (c, s, cache', ops)) :
    WalkOk skip cache c s cache' ops := by
  unfold cacheImageBlobs at h
  rcases hls : im.layersRes with e | ls <;> rw [hls] at h
  · exact absurd h (by simp)
  dsimp only at h
  rcases hrec : cacheImageLayers skip ls cache with e | ⟨lc, lsk, lcache, lops⟩ <;>
    rw [hrec] at h
  · exact absurd h (by simp)
  dsimp only at h
  rcases hmf : im.manifestRes with e | mf <;> rw [hmf] at h
  · exact absurd h (by simp)
  dsimp only at h
  have hlw := cacheImageLayers_basic skip ls cache lc lsk lcache lops hrec
  by_cases hskip : skip.contains mf.config.digest = true
  · rw [if_pos hskip] at h
    have hw := walkOk_compose hlw
      (walkOk_skipOne skip lcache mf.config.digest (List.elem_iff.mp hskip))
    cases h
    simpa using hw
  · rw [if_neg hskip] at h
    have hw := walkOk_compose hlw
      (walkOk_stageOne skip lcache mf.config.digest im.rawConfig
        (fun hm => hskip (List.elem_iff.mpr hm)))
    cases h
    simpa using hw

theorem cacheEntries_basic (skip : List Hash) (es : List IdxEntry) :
    ∀ (cache : CacheMap) (c s : List Hash) (cache' : CacheMap) (ops : List StoreOp),
    cacheEntries skip es cache = .ok (c, s, cache', ops) →
    WalkOk skip cache c s cache' ops := by
  match es with
  | [] =>
    intro cache c s cache' ops h
    unfold cacheEntries at h
    cases h
    exact walkOk_nil skip cache
  | IdxEntry.idx d raw centries :: rest =>
    intro cache c s cache' ops h
    unfold cacheEntries at h
    by_cases hidx : d.mediaType.isIndexKind = true
    · rw [if_pos hidx] at h
      rcases hch : cacheEntries skip centries cache with e | ⟨cc, cs, cache1, cops⟩ <;>
        rw [hch] at h
      · exact absurd h (by simp)
      dsimp only at h
      have hcw := cacheEntries_basic skip centries cache cc cs cache1 cops hch
      by_cases hskip : skip.contains d.digest = true
      · rw [if_pos hskip] at h
        rcases hr : cacheEntries skip rest cache1 with e | ⟨rc, rs, cache2, rops⟩ <;>
          rw [hr] at h
        · exact absurd h (by simp)
        dsimp only at h
        have hrw := cacheEntries_basic skip rest cache1 rc rs cache2 rops hr
        have hw := walkOk_compose hcw (walkOk_compose
          (walkOk_skipOne skip cache1 d.digest (List.elem_iff.mp hskip)) hrw)
        cases h
        simpa using hw
      · rw [if_neg hskip] at h
        rcases hr : cacheEntries skip rest (mapInsert cache1 d.digest raw) with
          e | ⟨rc, rs, cache2, rops⟩ <;> rw [hr] at h
        · exact absurd h (by simp)
        dsimp only at h
        have hrw := cacheEntries_basic skip rest (mapInsert cache1 d.digest raw)
          rc rs cache2 rops hr
        have hw := walkOk_compose hcw (walkOk_compose
          (walkOk_stageOne skip cache1 d.digest raw
            (fun hm => hskip (List.elem_iff.mpr hm))) hrw)
        cases h
        simpa using hw
    · rw [if_neg hidx] at h
      by_cases himg : d.mediaType.isImageKind = true
      · rw [if_pos himg] at h
        exact absurd h (by simp)
      · rw [if_neg himg] at h
        by_cases hskip : skip.contains d.digest = true
        · rw [if_pos hskip] at h
          rcases hr : cacheEntries skip rest cache with e | ⟨rc, rs, cache2, rops⟩ <;>
            rw [hr] at h
          · exact absurd h (by simp)
          dsimp only at h
          have hrw := cacheEntries_basic skip rest cache rc rs cache2 rops hr
          have hw := walkOk_compose
            (walkOk_skipOne skip cache d.digest (List.elem_iff.mp hskip)) hrw
          cases h
          simpa using hw
        · rw [if_neg hskip] at h
          rcases hr : cacheEntries skip rest (mapInsert cache d.digest raw) with
            e | ⟨rc, rs, cache2, rops⟩ <;> rw [hr] at h
          · exact absurd h (by simp)
          dsimp only at h
          have hrw := cacheEntries_basic skip rest (mapInsert cache d.digest raw)
            rc rs cache2 rops hr
          have hw := walkOk_compose
            (walkOk_stageOne skip cache d.digest raw
              (fun hm => hskip (List.elem_iff.mpr hm))) hrw
          cases h
          simpa using hw
  | IdxEntry.img d im :: rest =>
    intro cache c s cache' ops h
    unfold cacheEntries at h
    by_cases hidx : d.mediaType.isIndexKind = true
    · rw [if_pos hidx] at h
      exact absurd h (by simp)
    · rw [if_neg hidx] at h
      by_cases himg : d.mediaType.isImageKind = true
      · rw [if_pos himg] at h
        rcases hch : cacheImageBlobs im skip cache with e | ⟨cc, cs, cache1, cops⟩ <;>
          rw [hch] at h
        · exact absurd h (by simp)
        dsimp only at h
        have hcw := cacheImageBlobs_basic im skip cache cc cs cache1 cops hch
        by_cases hskip : skip.contains d.digest = true
        · rw [if_pos hskip] at h
          rcases hr : cacheEntries skip rest cache1 with e | ⟨rc, rs, cache2, rops⟩ <;>
            rw [hr] at h
          · exact absurd h (by simp)
          dsimp only at h
          have hrw := cacheEntries_basic skip rest cache1 rc rs cache2 rops hr
          have hw := walkOk_compose hcw (walkOk_compose
            (walkOk_skipOne skip cache1 d.digest (List.elem_iff.mp hskip)) hrw)
          cases h
          simpa using hw
        · rw [if_neg hskip] at h
          rcases hr : cacheEntries skip rest (mapInsert cache1 d.digest im.rawManifest) with
            e | ⟨rc, rs, cache2, rops⟩ <;> rw [hr] at h
          · exact absurd h (by simp)
          dsimp only at h
          have hrw := cacheEntries_basic skip rest (mapInsert cache1 d.digest im.rawManifest)
            rc rs cache2 rops hr
          have hw := walkOk_compose hcw (walkOk_compose
            (walkOk_stageOne skip cache1 d.digest im.rawManifest
              (fun hm => hskip (List.elem_iff.mpr hm))) hrw)
          cases h
          simpa using hw
      · rw [if_neg himg] at h
        by_cases hskip : skip.contains d.digest = true
        · rw [if_pos hskip] at h
          rcases hr : cacheEntries skip rest cache with e | ⟨rc, rs, cache2, rops⟩ <;>
            rw [hr] at h
          · exact absurd h (by simp)
          dsimp only at h
          have hrw := cacheEntries_basic skip rest cache rc rs cache2 rops hr
          have hw := walkOk_compose
            (walkOk_skipOne skip cache d.digest (List.elem_iff.mp hskip)) hrw
          cases h
          simpa using hw
        · rw [if_neg hskip] at h
          rcases hr : cacheEntries skip rest (mapInsert cache d.digest im.rawManifest) with
            e | ⟨rc, rs, cache2, rops⟩ <;> rw [hr] at h
          · exact absurd h (by simp)
          dsimp only at h
          have hrw := cacheEntries_basic skip rest (mapInsert cache d.digest im.rawManifest)
            rc rs cache2 rops hr
          have hw := walkOk_compose
            (walkOk_stageOne skip cache d.digest im.rawManifest
              (fun hm => hskip (List.elem_iff.mpr hm))) hrw
          cases h
          simpa using hw
  | IdxEntry.blob d content :: rest =>
    intro cache c s cache' ops h
    unfold cacheEntries at h
    by_cases hidx : d.mediaType.isIndexKind = true
    · rw [if_pos hidx] at h
      exact absurd h (by simp)
    · rw [if_neg hidx] at h
      by_cases himg : d.mediaType.isImageKind = true
      · rw [if_pos himg] at h
        exact absurd h (by simp)
      · rw [if_neg himg] at h
        by_cases hskip : skip.contains d.digest = true
        · rw [if_pos hskip] at h
          rcases hr : cacheEntries skip rest cache with e | ⟨rc, rs, cache2, rops⟩ <;>
            rw [hr] at h
          · exact absurd h (by simp)
          dsimp only at h
          have hrw := cacheEntries_basic skip rest cache rc rs cache2 rops hr
          have hw := walkOk_compose
            (walkOk_skipOne skip cache d.digest (List.elem_iff.mp hskip)) hrw
          cases h
          simpa using hw
        · rw [if_neg hskip] at h
          rcases hr : cacheEntries skip rest (mapInsert cache d.digest content) with
            e | ⟨rc, rs, cache2, rops⟩ <;> rw [hr] at h
          · exact absurd h (by simp)
          dsimp only at h
          have hrw := cacheEntries_basic skip rest (mapInsert cache d.digest content)
            rc rs cache2 rops hr
          have hw := walkOk_compose
            (walkOk_stageOne skip cache d.digest content
              (fun hm => hskip (List.elem_iff.mpr hm))) hrw
          cases h
          simpa using hw
termination_by sizeOf es

theorem walkReach_nil (env : Env) (cache : CacheMap) :
    WalkReach env [] cache [] [] cache := ⟨by simp, id⟩

theorem walkReach_skipOne (env : Env) (cache : CacheMap) (dg : Hash) :
    WalkReach env [dg] cache [] [dg] cache := ⟨by simp, id⟩

theorem walkReach_stageOne (env : Env) (cache : CacheMap) (dg : Hash) (bytes : List Nat)
    (hh : env.hashBytes bytes = dg) :
    WalkReach env [dg] cache [dg] [] (mapInsert cache dg bytes) := by
  refine ⟨by simp, ?_⟩
  intro hwf k b hlk
  rw [mapLookup_insert] at hlk
  by_cases hk : k = dg
  · rw [if_pos hk] at hlk
    cases hlk
    rw [hh]
    exact hk.symm
  · rw [if_neg hk] at hlk
    exact hwf k b hlk

theorem walkReach_compose {env : Env} {r1 r2 : List Hash} {cache : CacheMap}
    {c1 s1 : List Hash} {cacheMid : CacheMap} {c2 s2 : List Hash} {cache' : CacheMap}
    (h1 : WalkReach env r1 cache c1 s1 cacheMid)
    (h2 : WalkReach env r2 cacheMid c2 s2 cache') :
    WalkReach env (r1 ++ r2) cache (c1 ++ c2) (s1 ++ s2) cache' := by
  obtain ⟨a1, a2⟩ := h1
  obtain ⟨b1, b2⟩ := h2
  refine ⟨?_, fun hwf => b2 (a2 hwf)⟩
  intro d
  simp only [List.mem_append]
  rw [a1 d, b1 d]
  tauto

theorem imageKind_not_indexKind (m : MediaType) (h : m.isImageKind = true) :
    m.isIndexKind = false := by
  cases m <;> simp_all [MediaType.isImageKind, MediaType.isIndexKind]

theorem cacheImageLayers_wf (env : Env) (skip : List Hash) :
    ∀ (ls : List Layer) (cache : CacheMap) (c s : List Hash) (cache' : CacheMap)
      (ops : List StoreOp),
    wfLayers env ls = true →
    cacheImageLayers skip ls cache = .ok (c, s, cache', ops) →
    WalkReach env (ls.map fun l => l.digestRes.toOption.getD 0) cache c s cache' := by
  intro ls
  induction ls with
  | nil =>
    intro cache c s cache' ops _ h
    unfold cacheImageLayers at h
    cases h
    exact walkReach_nil env cache
  | cons l rest ih =>
    intro cache c s cache' ops hwf h
    rw [wfLayers, Bool.and_eq_true, beq_iff_eq] at hwf
    obtain ⟨hwf1, hwf2⟩ := hwf
    unfold cacheImageLayers at h
    rcases hld : l.digestRes with e | ld <;> rw [hld] at h
    · exact absurd h (by simp)
    dsimp only at h
    have hldv : l.digestRes.toOption.getD 0 = ld := by rw [hld]; rfl
    have hh : env.hashBytes l.content = ld := by
      rw [hwf1] at hld
      exact (Except.ok.inj hld)
    by_cases hskip : skip.contains ld = true
    · rw [if_pos hskip] at h
      rcases hrec : cacheImageLayers skip rest cache with e | ⟨rc, rs, rcache, rops⟩ <;>
        rw [hrec] at h
      · exact absurd h (by simp)
      dsimp only at h
      have hw := walkReach_compose (walkReach_skipOne env cache ld)
        (ih cache rc rs rcache rops hwf2 hrec)
      cases h
      simpa [hldv] using hw
    · rw [if_neg hskip] at h
      rcases hrec : cacheImageLayers skip rest (mapInsert cache ld l.content) with
        e | ⟨rc, rs, rcache, rops⟩ <;> rw [hrec] at h
      · exact absurd h (by simp)
      dsimp only at h
      have hw := walkReach_compose (walkReach_stageOne env cache ld l.content hh)
        (ih (mapInsert cache ld l.content) rc rs rcache rops hwf2 hrec)
      cases h
      simpa [hldv] using hw

theorem cacheImageBlobs_wf (env : Env) (im : ImageT) (skip : List Hash)
    (cache : CacheMap) (c s : List Hash) (cache' : CacheMap) (ops : List StoreOp)
    (hwf : wfImage env im = true)
    (h : cacheImageBlobs im skip cache = .ok (c, s, cache', ops)) :
    WalkReach env (imageReach im) cache c s cache' := by
  unfold cacheImageBlobs at h
  rcases hls : im.layersRes with e | ls <;> rw [hls] at h
  · exact absurd h (by simp)
  dsimp only at h
  rcases hrec : cacheImageLayers skip ls cache with e | ⟨lc, lsk, lcache, lops⟩ <;>
    rw [hrec] at h
  · exact absurd h (by simp)
  dsimp only at h
  rcases hmf : im.manifestRes with e | mf <;> rw [hmf] at h
  · exact absurd h (by simp)
  dsimp only at h
  rw [wfImage, hls, hmf, Bool.and_eq_true, beq_iff_eq] at hwf
  obtain ⟨hwfl, hwfc⟩ := hwf
  have hreach : imageReach im = (ls.map fun l => l.digestRes.toOption.getD 0) ++ [mf.config.digest] := by
    unfold imageReach
    rw [hls, hmf]
    rfl
  have hlw := cacheImageLayers_wf env skip ls cache lc lsk lcache lops hwfl hrec
  by_cases hskip : skip.contains mf.config.digest = true
  · rw [if_pos hskip] at h
    have hw := walkReach_compose hlw (walkReach_skipOne env lcache mf.config.digest)
    cases h
    rw [hreach]
    simpa using hw
  · rw [if_neg hskip] at h
    have hw := walkReach_compose hlw
      (walkReach_stageOne env lcache mf.config.digest im.rawConfig hwfc.symm)
    cases h
    rw [hreach]
    simpa using hw

theorem cacheEntries_wf (env : Env) (skip : List Hash) (es : List IdxEntry) :
    ∀ (cache : CacheMap) (c s : List Hash) (cache' : CacheMap) (ops : List StoreOp),
    wfEntries env es = true →
    cacheEntries skip es cache = .ok (c, s, cache', ops) →
    WalkReach env (reachableDigests es) cache c s cache' := by
  match es with
  | [] =>
    intro cache c s cache' ops _ h
    unfold cacheEntries at h
    cases h
    rw [reachableDigests]
    exact walkReach_nil env cache
  | IdxEntry.idx d raw centries :: rest =>
    intro cache c s cache' ops hwf h
    rw [wfEntries, Bool.and_eq_true, Bool.and_eq_true, Bool.and_eq_true, beq_iff_eq] at hwf
    obtain ⟨⟨⟨hidx, hdg⟩, hwfc⟩, hwfr⟩ := hwf
    unfold cacheEntries at h
    rw [if_pos hidx] at h
    rcases hch : cacheEntries skip centries cache with e | ⟨cc, cs, cache1, cops⟩ <;>
      rw [hch] at h
    · exact absurd h (by simp)
    dsimp only at h
    have hcw := cacheEntries_wf env skip centries cache cc cs cache1 cops hwfc hch
    by_cases hskip : skip.contains d.digest = true
    · rw [if_pos hskip] at h
      rcases hr : cacheEntries skip rest cache1 with e | ⟨rc, rs, cache2, rops⟩ <;>
        rw [hr] at h
      · exact absurd h (by simp)
      dsimp only at h
      have hrw := cacheEntries_wf env skip rest cache1 rc rs cache2 rops hwfr hr
      have hw := walkReach_compose hcw
        (walkReach_compose (walkReach_skipOne env cache1 d.digest) hrw)
      cases h
      rw [reachableDigests]
      simpa using hw
    · rw [if_neg hskip] at h
      rcases hr : cacheEntries skip rest (mapInsert cache1 d.digest raw) with
        e | ⟨rc, rs, cache2, rops⟩ <;> rw [hr] at h
      · exact absurd h (by simp)
      dsimp only at h
      have hrw := cacheEntries_wf env skip rest (mapInsert cache1 d.digest raw)
        rc rs cache2 rops hwfr hr
      have hw := walkReach_compose hcw
        (walkReach_compose (walkReach_stageOne env cache1 d.digest raw hdg.symm) hrw)
      cases h
      rw [reachableDigests]
      simpa using hw
  | IdxEntry.img d im :: rest =>
    intro cache c s cache' ops hwf h
    rw [wfEntries, Bool.and_eq_true, Bool.and_eq_true, Bool.and_eq_true, beq_iff_eq] at hwf
    obtain ⟨⟨⟨himg, hdg⟩, hwfi⟩, hwfr⟩ := hwf
    unfold cacheEntries at h
    rw [if_neg (by rw [imageKind_not_indexKind d.mediaType himg]; exact fun hc => Bool.noConfusion hc)] at h
    rw [if_pos himg] at h
    rcases hch : cacheImageBlobs im skip cache with e | ⟨cc, cs, cache1, cops⟩ <;>
      rw [hch] at h
    · exact absurd h (by simp)
    dsimp only at h
    have hcw := cacheImageBlobs_wf env im skip cache cc cs cache1 cops hwfi hch
    by_cases hskip : skip.contains d.digest = true
    · rw [if_pos hskip] at h
      rcases hr : cacheEntries skip rest cache1 with e | ⟨rc, rs, cache2, rops⟩ <;>
        rw [hr] at h
      · exact absurd h (by simp)
      dsimp only at h
      have hrw := cacheEntries_wf env skip rest cache1 rc rs cache2 rops hwfr hr
      have hw := walkReach_compose hcw
        (walkReach_compose (walkReach_skipOne env cache1 d.digest) hrw)
      cases h
      rw [reachableDigests]
      simpa using hw
    · rw [if_neg hskip] at h
      rcases hr : cacheEntries skip rest (mapInsert cache1 d.digest im.rawManifest) with
        e | ⟨rc, rs, cache2, rops⟩ <;> rw [hr] at h
      · exact absurd h (by simp)
      dsimp only at h
      have hrw := cacheEntries_wf env skip rest (mapInsert cache1 d.digest im.rawManifest)
        rc rs cache2 rops hwfr hr
      have hw := walkReach_compose hcw
        (walkReach_compose (walkReach_stageOne env cache1 d.digest im.rawManifest hdg.symm) hrw)
      cases h
      rw [reachableDigests]
      simpa using hw
  | IdxEntry.blob d content :: rest =>
    intro cache c s cache' ops hwf h
    rw [wfEntries, Bool.and_eq_true, Bool.and_eq_true, Bool.and_eq_true, beq_iff_eq,
      Bool.not_eq_true', Bool.not_eq_true'] at hwf
    obtain ⟨⟨⟨hidx, himg⟩, hdg⟩, hwfr⟩ := hwf
    unfold cacheEntries at h
    rw [if_neg (by rw [hidx]; exact fun hc => Bool.noConfusion hc)] at h
    rw [if_neg (by rw [himg]; exact fun hc => Bool.noConfusion hc)] at h
    by_cases hskip : skip.contains d.digest = true
    · rw [if_pos hskip] at h
      rcases hr : cacheEntries skip rest cache with e | ⟨rc, rs, cache2, rops⟩ <;>
        rw [hr] at h
      · exact absurd h (by simp)
      dsimp only at h
      have hrw := cacheEntries_wf env skip rest cache rc rs cache2 rops hwfr hr
      have hw := walkReach_compose (walkReach_skipOne env cache d.digest) hrw
      cases h
      rw [reachableDigests]
      simpa using hw
    · rw [if_neg hskip] at h
      rcases hr : cacheEntries skip rest (mapInsert cache d.digest content) with
        e | ⟨rc, rs, cache2, rops⟩ <;> rw [hr] at h
      · exact absurd h (by simp)
      dsimp only at h
      have hrw := cacheEntries_wf env skip rest (mapInsert cache d.digest content)
        rc rs cache2 rops hwfr hr
      have hw := walkReach_compose (walkReach_stageOne env cache d.digest content hdg.symm) hrw
      cases h
      rw [reachableDigests]
      simpa using hw
termination_by sizeOf es

theorem deleteBlobsExceptM_char (keep : List Hash) :
    ∀ blobs : List (Hash × List Nat),
    (deleteBlobsExceptM keep blobs).1 = blobs.filter (fun b => keep.contains b.1) ∧
    (deleteBlobsExceptM keep blobs).2 =
      (blobs.filter (fun b => !keep.contains b.1)).map (fun b => StoreOp.deleteBlob b.1) := by
  intro blobs
  induction blobs with
  | nil => exact ⟨rfl, rfl⟩
  | cons b rest ih =>
    unfold deleteBlobsExceptM
    by_cases hk : keep.contains b.1 = true
    · have hmem : b.1 ∈ keep := List.elem_iff.mp hk
      simp [hk, hmem, List.filter_cons, ih.1, ih.2]
    · have hmem : b.1 ∉ keep := fun hm => hk (List.elem_iff.mpr hm)
      simp [hk, hmem, List.filter_cons, ih.1, ih.2]

theorem addBlobsLoop_ok (env : Env) (cache : CacheMap) :
    ∀ (ds : List Hash) (s : Store),
    (∀ d ∈ ds, (mapLookup cache d).isSome) →
    ∃ ext : List (Hash × List Nat),
      addBlobsLoop env cache ds s =
        (.ok (), { s with blobs := s.blobs ++ ext },
          ext.map (fun p => StoreOp.addBlob p.1 p.2)) ∧
      (cacheWf env cache → ext.map Prod.fst = ds) := by
  intro ds
  induction ds with
  | nil =>
    intro s _
    refine ⟨[], ?_, fun _ => rfl⟩
    unfold addBlobsLoop
    simp
  | cons d rest ih =>
    intro s hds
    have hd := hds d (List.mem_cons_self d rest)
    rcases hlk : mapLookup cache d with _ | bytes
    · rw [hlk] at hd; simp at hd
    obtain ⟨ext, hext, hfst⟩ :=
      ih { s with blobs := s.blobs ++ [(env.hashBytes bytes, bytes)] }
        (fun d' hd' => hds d' (List.mem_cons_of_mem d hd'))
    refine ⟨(env.hashBytes bytes, bytes) :: ext, ?_, ?_⟩
    · unfold addBlobsLoop
      rw [hlk]
      dsimp only
      rw [hext]
      simp [List.append_assoc]
    · intro hwf
      rw [List.map_cons, hfst hwf, hwf d bytes hlk]

theorem update_shape (env : Env) (store : Store) (ii : ImageIndexT)
    (opts : List (Except GoErr Unit)) :
    (∃ e, Update env store ii opts = (.error e, store, [])) ∨
    (∃ r, store.root = some r ∧ env.hashBytes r = ii.digest ∧
      Update env store ii opts = (.ok (), store, [])) ∨
    (∃ r cached keep cache stageOps ext,
      store.root = some r ∧ env.hashBytes r ≠ ii.digest ∧
      cacheIndexBlobs ii store.blobDigests [] = .ok (cached, keep, cache, stageOps) ∧
      Update env store ii opts =
        (.ok (), { blobs := (deleteBlobsExceptM keep store.blobs).1 ++ ext,
                   root := some ii.raw },
         stageOps ++ (deleteBlobsExceptM keep store.blobs).2 ++ [.deleteRoot] ++
           ext.map (fun p => StoreOp.addBlob p.1 p.2) ++ [.setRoot ii.raw]) ∧
      (wfEntries env ii.entries = true → ext.map Prod.fst = cached)) := by
  rcases hopts : applyOpts opts with e | u
  · left
    refine ⟨e, ?_⟩
    unfold Update
    rw [hopts]
  · rcases hroot : store.root with _ | r
    · left
      refine ⟨.noRootIndex, ?_⟩
      unfold Update
      rw [hopts, hroot]
    · by_cases hdg : env.hashBytes r = ii.digest
      · right; left
        refine ⟨r, rfl, hdg, ?_⟩
        unfold Update
        rw [hopts, hroot]
        dsimp only
        rw [if_pos hdg]
      · rcases hcib : cacheIndexBlobs ii store.blobDigests [] with
          e | ⟨cached, keep, cache, stageOps⟩
        · left
          refine ⟨e, ?_⟩
          unfold Update
          rw [hopts, hroot]
          dsimp only
          rw [if_neg hdg]
          have hcib2 : cacheEntries store.blobDigests ii.entries [] = Except.error e := hcib
          unfold cacheIndexBlobs
          rw [hcib2]
        · right; right
          obtain ⟨b1, b2, b3, b4, b5, b6⟩ :=
            cacheEntries_basic store.blobDigests ii.entries [] cached keep cache stageOps hcib
          obtain ⟨ext, hext, hfst⟩ := addBlobsLoop_ok env cache cached
            { blobs := (deleteBlobsExceptM keep store.blobs).1, root := none }
            (fun d hd => b4 d hd)
          have hcib2 : cacheEntries store.blobDigests ii.entries [] =
              Except.ok (cached, keep, cache, stageOps) := hcib
          refine ⟨r, cached, keep, cache, stageOps, ext, rfl, hdg, rfl, ?_, ?_⟩
          · unfold Update
            rw [hopts, hroot]
            dsimp only
            rw [if_neg hdg]
            unfold cacheIndexBlobs
            rw [hcib2]
            dsimp only
            rw [hext]
          · intro hwf
            have hreach := cacheEntries_wf env store.blobDigests ii.entries []
              cached keep cache stageOps hwf hcib
            refine hfst (hreach.2 ?_)
            intro k b hlk
            exact absurd hlk (by simp [mapLookup])

/-! ## Claim theorems: the lazy manifest builder -/

/-- C3 (counterexample): a lazy image whose override list (length 1) is
shorter than its base's layer count (2) does not make the compute-once pass
fail with an argument error — `populate` succeeds and `Layers()` silently
returns the truncated single-layer list. -/
theorem populate_tolerates_short_overrides :
    cImgShort.overrides.length = 1 ∧
    cImgShort.base.layersRes = .ok [cL0, cL1] ∧
    (populate cEnv cHeap cImgShort).1 = .ok () ∧
    (layersAccessor cEnv cHeap cImgShort).1 = .ok [cL0] := by
  refine ⟨rfl, rfl, by decide, by decide⟩

/-- C3 (amended): the override-list length constraint is enforced at
construction, not by the compute-once pass: `NewLazyImage` rejects an
override list whose length differs from the base layer count with the
distinct argument error, so no lazy image with a mismatched list is ever
constructed.  (`populate` itself performs no length check; see the
counterexample.) -/
theorem newLazyImage_rejects_length_mismatch
    (base : BaseImage) (overrides : List (Option Layer)) (history : Option History)
    (ls : List Layer) (hls : base.layersRes = .ok ls)
    (hlen : overrides.length ≠ ls.length) :
    NewLazyImage base overrides history = .error .argumentError := by
  unfold NewLazyImage
  rw [hls]
  dsimp only
  rw [if_neg hlen]

theorem newLazyImage_rejects_length_mismatch_witness :
    cBase.layersRes = .ok [cL0, cL1] ∧
    ([none] : List (Option Layer)).length ≠ ([cL0, cL1] : List Layer).length ∧
    NewLazyImage cBase [none] none = .error .argumentError :=
  ⟨rfl, by decide,
    newLazyImage_rejects_length_mismatch cBase [none] none [cL0, cL1] rfl (by decide)⟩

/-- C4: once the compute-once pass triggered by a lookup succeeds,
`LayerByDigest` and `LayerByDiffID` return the mapped layer without error for
every hash present in the respective lookup map, and fail with the distinct
`errLayerNotFound` condition — not a generic collaborator error — for every
hash absent from it. -/
theorem layer_lookup_notFound_or_found (env : Env) (hp : Heap) (img : LazyImage)
    (hp' : Heap) (img' : LazyImage) (h : Hash)
    (hpop : populate env hp img = (.ok (), hp', img')) :
    (mapLookup img'.byDigest h = none →
      layerByDigest env hp img h = (.error .layerNotFound, hp', img')) ∧
    (∀ l, mapLookup img'.byDigest h = some l →
      layerByDigest env hp img h = (.ok l, hp', img')) ∧
    (mapLookup img'.byDiffID h = none →
      layerByDiffID env hp img h = (.error .layerNotFound, hp', img')) ∧
    (∀ l, mapLookup img'.byDiffID h = some l →
      layerByDiffID env hp img h = (.ok l, hp', img')) ∧
    (∀ c, GoErr.layerNotFound ≠ GoErr.generic c) := by
  refine ⟨?_, ?_, ?_, ?_, fun c => by simp⟩
  · intro hlk
    unfold layerByDigest
    rw [hpop]
    dsimp only
    rw [hlk]
  · intro l hlk
    unfold layerByDigest
    rw [hpop]
    dsimp only
    rw [hlk]
  · intro hlk
    unfold layerByDiffID
    rw [hpop]
    dsimp only
    rw [hlk]
  · intro l hlk
    unfold layerByDiffID
    rw [hpop]
    dsimp only
    rw [hlk]

theorem layer_lookup_notFound_or_found_witness :
    populate cEnv cHeap cImgSub =
      (.ok (), (populate cEnv cHeap cImgSub).2.1, (populate cEnv cHeap cImgSub).2.2) ∧
    mapLookup (populate cEnv cHeap cImgSub).2.2.byDigest 999 = none ∧
    mapLookup (populate cEnv cHeap cImgSub).2.2.byDigest 52 = some cLnew ∧
    (layerByDigest cEnv cHeap cImgSub 999).1 = .error .layerNotFound ∧
    (layerByDigest cEnv cHeap cImgSub 52).1 = .ok cLnew ∧
    (layerByDiffID cEnv cHeap cImgSub 999).1 = .error .layerNotFound := by
  have h9 := layer_lookup_notFound_or_found cEnv cHeap cImgSub
    (populate cEnv cHeap cImgSub).2.1 (populate cEnv cHeap cImgSub).2.2 999 (by decide)
  have h5 := layer_lookup_notFound_or_found cEnv cHeap cImgSub
    (populate cEnv cHeap cImgSub).2.1 (populate cEnv cHeap cImgSub).2.2 52 (by decide)
  refine ⟨by decide, by decide, by decide, ?_, ?_, ?_⟩
  · rw [h9.1 (by decide)]
  · rw [h5.2.1 cLnew (by decide)]
  · rw [h9.2.2.1 (by decide)]

/-- C5: if the compute-once pass fails at any step, the image is left exactly
in its pre-computation state — no derived field (computed flag, diff-ID list,
lookup maps, manifest pointer, config pointer) is modified — so a later call
finds `computed` still false and re-runs the full pass. -/
theorem populate_failure_commits_nothing (env : Env) (hp : Heap) (img : LazyImage)
    (e : GoErr) (hp' : Heap) (img' : LazyImage)
    (h : populate env hp img = (.error e, hp', img')) : img' = img :=
  populate_err_frame env hp img e hp' img' h

theorem populate_failure_commits_nothing_witness :
    populate cEnv cHeap cImgFail = (.error (.generic 3), cHeap, cImgFail) ∧
    cImgFail = cImgFail :=
  ⟨by decide,
    populate_failure_commits_nothing cEnv cHeap cImgFail (.generic 3) cHeap cImgFail
      (by decide)⟩

/-- C9: the compute-once pass operates only on deep, independent copies: no
sequence of accessor calls on a lazy image mutates the heap cells holding the
base image's manifest and config file, so the base's `Manifest()` and
`ConfigFile()` contents are unchanged afterwards. -/
theorem lazy_accessors_never_mutate_base (env : Env) (as : List Accessor)
    (hp : Heap) (img : LazyImage) (cb mb : Nat)
    (_hcb : img.base.cfgRes = .ok cb) (hcblt : cb < hp.configs.length)
    (_hmb : img.base.manRes = .ok mb) (hmblt : mb < hp.manifests.length) :
    (runAccessors env as hp img).1.configs[cb]? = hp.configs[cb]? ∧
    (runAccessors env as hp img).1.manifests[mb]? = hp.manifests[mb]? := by
  obtain ⟨-, -, h3, h4⟩ := runAccessors_heapPrefix env as hp img
  exact ⟨h3 cb hcblt, h4 mb hmblt⟩

theorem lazy_accessors_never_mutate_base_witness :
    cImgSub.base.cfgRes = .ok 0 ∧ 0 < cHeap.configs.length ∧
    cImgSub.base.manRes = .ok 0 ∧ 0 < cHeap.manifests.length ∧
    (runAccessors cEnv [.layersA, .configFileA, .layerByDigestA 52, .manifestA]
        cHeap cImgSub).1.configs[0]? = cHeap.configs[0]? ∧
    (runAccessors cEnv [.layersA, .configFileA, .layerByDigestA 52, .manifestA]
        cHeap cImgSub).1.manifests[0]? = cHeap.manifests[0]? := by
  have h := lazy_accessors_never_mutate_base cEnv
    [.layersA, .configFileA, .layerByDigestA 52, .manifestA]
    cHeap cImgSub 0 0 (by decide) (by decide) (by decide) (by decide)
  exact ⟨by decide, by decide, by decide, by decide, h.1, h.2⟩

theorem lazy_layer_substitution_witness :
    cImgSub.computed = false ∧
    cImgSub.base.cfgRes = .ok 0 ∧
    cImgSub.base.layersRes = .ok [cL0, cL1] ∧
    0 < ([cL0, cL1] : List Layer).length ∧
    cImgSub.overrides.length = ([cL0, cL1] : List Layer).length ∧
    cImgSub.overrides[0]? = some (some cLnew) ∧
    (∀ j, j < cImgSub.overrides.length → j ≠ 0 → cImgSub.overrides[j]? = some none) ∧
    cLnew.diffIDRes = .ok 62 ∧
    cLnew.digestRes = .ok 52 ∧
    ((([cL0, cL1] : List Layer).set 0 cLnew).map diffOfD).Nodup ∧
    ((([cL0, cL1] : List Layer).set 0 cLnew).map fun l => (descOfD l).digest).Nodup ∧
    (cHeap.configs.getD 0 default).diffIDs = ([cL0, cL1] : List Layer).map diffOfD ∧
    (layersAccessor cEnv cHeap cImgSub).1 = .ok [cLnew, cL1] ∧
    (layerByDiffID cEnv cHeap cImgSub 62).1 = .ok cLnew ∧
    (layerByDigest cEnv cHeap cImgSub 52).1 = .ok cLnew := by
  have h := lazy_layer_substitution cEnv cHeap cImgSub
    (populate cEnv cHeap cImgSub).2.1 (populate cEnv cHeap cImgSub).2.2
    [cL0, cL1] cLnew 0 62 52 0
    (by decide) (by decide) (by decide) (by decide) (by decide) (by decide)
    (by decide) (by decide) (by decide) (by decide) (by decide) (by decide) (by decide)
  refine ⟨by decide, by decide, by decide, by decide, by decide, by decide, by decide,
    by decide, by decide, by decide, by decide, by decide, ?_, ?_, ?_⟩
  · rw [h.1]; decide
  · rw [h.2.2.2.2.2.2.2.1]
  · rw [h.2.2.2.2.2.2.2.2]

/-! ## Claim theorems: the blob synchronizer -/

/-- C10: if `Update` fails at any point before the deletion phase begins
(option application, root-index read and digest comparison, or the recursive
caching pass — in this model every fallible step precedes the deletion
phase), the store is left entirely unmutated: same blobs, same root index,
and no store mutation is performed. -/
theorem update_failure_no_mutation (env : Env) (store : Store) (ii : ImageIndexT)
    (opts : List (Except GoErr Unit)) (e : GoErr) (s' : Store) (tr : List StoreOp)
    (h : Update env store ii opts = (.error e, s', tr)) :
    s' = store ∧ tr = [] := by
  rcases update_shape env store ii opts with ⟨e2, heq⟩ | ⟨r, hr, hd, heq⟩ |
    ⟨r, cached, keep, cache, stageOps, ext, hr, hd, hcib, heq, hwfc⟩
  · rw [heq] at h
    cases h
    exact ⟨rfl, rfl⟩
  · rw [heq] at h
    exact absurd h (by simp)
  · rw [heq] at h
    exact absurd h (by simp)

theorem update_failure_no_mutation_witness :
    Update cEnv cStore cR2 [.error (.generic 5)] = (.error (.generic 5), cStore, []) ∧
    cStore = cStore ∧ ([] : List StoreOp) = [] := by
  have heval : Update cEnv cStore cR2 [.error (.generic 5)] =
      (.error (.generic 5), cStore, []) := by
    simp [Update, applyOpts]
  exact ⟨heval,
    update_failure_no_mutation cEnv cStore cR2 [.error (.generic 5)] (.generic 5)
      cStore [] heval⟩

/-- C2: if the store's current root-index digest equals the digest of the
target index, `Update` succeeds with zero mutations (nothing staged, added,
deleted or rewritten); consequently a second consecutive `Update` with the
same index performs zero mutations. -/
theorem update_shortCircuit_idempotent (env : Env) (ii : ImageIndexT)
    (hwfroot : ii.digest = env.hashBytes ii.raw) :
    (∀ (store : Store) (r : List Nat), store.root = some r →
      env.hashBytes r = ii.digest →
      Update env store ii [] = (.ok (), store, [])) ∧
    (∀ (store s' : Store) (tr : List StoreOp),
      Update env store ii [] = (.ok (), s', tr) →
      Update env s' ii [] = (.ok (), s', [])) := by
  have hpart1 : ∀ (store : Store) (r : List Nat), store.root = some r →
      env.hashBytes r = ii.digest → Update env store ii [] = (.ok (), store, []) := by
    intro store r hroot hdg
    unfold Update
    dsimp only [applyOpts]
    rw [hroot]
    dsimp only
    rw [if_pos hdg]
  refine ⟨hpart1, ?_⟩
  intro store s' tr h
  rcases update_shape env store ii [] with ⟨e, heq⟩ | ⟨r, hr, hd, heq⟩ |
    ⟨r, cached, keep, cache, stageOps, ext, hr, hd, hcib, heq, hwfc⟩
  · rw [heq] at h
    exact absurd h (by simp)
  · rw [heq] at h
    cases h
    exact hpart1 store r hr hd
  · rw [heq] at h
    cases h
    exact hpart1 _ ii.raw rfl hwfroot.symm

theorem update_shortCircuit_idempotent_witness :
    cR2.digest = cEnv.hashBytes cR2.raw ∧
    cStoreSC.root = some [5] ∧ cEnv.hashBytes [5] = cR2.digest ∧
    Update cEnv cStoreSC cR2 [] = (.ok (), cStoreSC, []) ∧
    Update cEnv cStoreAfter cR2 [] = (.ok (), cStoreAfter, []) := by
  have h := update_shortCircuit_idempotent cEnv cR2 rfl
  have heval : Update cEnv cStore cR2 [] = (.ok (), cStoreAfter, cTrace) := by
    simp [Update, applyOpts, cacheIndexBlobs, cacheEntries, cacheImageBlobs,
      cacheImageLayers, deleteBlobsExceptM, addBlobsLoop, mapInsert, mapLookup,
      Store.blobDigests, cR2, cEntryE, cEntryIm, cIm, cBlobLayer, cStore, cStoreAfter,
      cTrace, cEnv, MediaType.isIndexKind, MediaType.isImageKind]
  exact ⟨rfl, rfl, rfl, h.1 cStoreSC [5] rfl rfl, h.2 cStore cStoreAfter cTrace heval⟩

/-- C1 (counterexample): the claim fails for a store whose root-index digest
already matches the target: `Update` short-circuits and succeeds without
deleting the unreferenced blob 77, so the blob set does not equal the
reachable set — even though the target index is well-formed. -/
theorem update_shortCircuit_leaves_stale :
    wfEntries cEnv cIdx0.entries = true ∧
    Update cEnv cStoreStale cIdx0 [] = (.ok (), cStoreStale, []) ∧
    77 ∈ cStoreStale.blobDigests ∧
    77 ∉ reachableDigests cIdx0.entries := by
  refine ⟨by simp [cIdx0, wfEntries], ?_, by decide, ?_⟩
  · simp [Update, applyOpts, cStoreStale, cIdx0, cEnv]
  · simp [cIdx0, reachableDigests]

/-- C1 (amended): for every well-formed target index and every store whose
current root-index digest differs from the target's (every call that actually
synchronizes), a successful `Update` leaves the store's content-blob digest
set exactly the set of digests transitively reachable from the target index
(no unreferenced blob remains, no referenced blob is missing), and the
root-index object holds the target index's serialized bytes. -/
theorem update_reconciles_store (env : Env) (store : Store) (ii : ImageIndexT)
    (r : List Nat) (s' : Store) (tr : List StoreOp)
    (hwf : wfEntries env ii.entries = true)
    (hroot : store.root = some r)
    (hne : env.hashBytes r ≠ ii.digest)
    (hupd : Update env store ii [] = (.ok (), s', tr)) :
    (∀ d, d ∈ s'.blobDigests ↔ d ∈ reachableDigests ii.entries) ∧
    s'.root = some ii.raw := by
  rcases update_shape env store ii [] with ⟨e, heq⟩ | ⟨r2, hr2, hd2, heq⟩ |
    ⟨r2, cached, keep, cache, stageOps, ext, hr2, hd2, hcib, heq, hwfc⟩
  · rw [heq] at hupd
    exact absurd hupd (by simp)
  · rw [hroot] at hr2
    injection hr2 with hr2
    rw [hr2] at hne
    exact absurd hd2 hne
  · rw [heq] at hupd
    cases hupd
    have hkept := (deleteBlobsExceptM_char keep store.blobs).1
    have hextc := hwfc hwf
    have hreach := (cacheEntries_wf env store.blobDigests ii.entries [] cached keep cache
      stageOps hwf hcib).1
    obtain ⟨b1, b2, b3, b4, b5, b6⟩ :=
      cacheEntries_basic store.blobDigests ii.entries [] cached keep cache stageOps hcib
    refine ⟨?_, rfl⟩
    intro d
    constructor
    · intro hd
      simp only [Store.blobDigests, List.map_append, List.mem_append] at hd
      rcases hd with hd | hd
      · rw [hkept] at hd
        simp only [List.mem_map, List.mem_filter] at hd
        obtain ⟨b, ⟨hbmem, hbkeep⟩, hbd⟩ := hd
        refine (hreach d).mpr (Or.inr ?_)
        rw [← hbd]
        exact List.elem_iff.mp hbkeep
      · rw [hextc] at hd
        exact (hreach d).mpr (Or.inl hd)
    · intro hd
      rcases (hreach d).mp hd with hc | hk
      · simp only [Store.blobDigests, List.map_append, List.mem_append]
        right
        rw [hextc]
        exact hc
      · have hd2 := b1 d hk
        simp only [Store.blobDigests, List.mem_map] at hd2
        obtain ⟨b, hbmem, hbd⟩ := hd2
        simp only [Store.blobDigests, List.map_append, List.mem_append]
        left
        rw [hkept]
        simp only [List.mem_map, List.mem_filter]
        refine ⟨b, ⟨hbmem, List.elem_iff.mpr (by rw [hbd]; exact hk)⟩, hbd⟩

theorem update_reconciles_store_witness :
    wfEntries cEnv cR2.entries = true ∧
    cStore.root = some [4] ∧
    cEnv.hashBytes [4] ≠ cR2.digest ∧
    Update cEnv cStore cR2 [] = (.ok (), cStoreAfter, cTrace) ∧
    (∀ d, d ∈ cStoreAfter.blobDigests ↔ d ∈ reachableDigests cR2.entries) ∧
    cStoreAfter.root = some cR2.raw := by
  have hwf : wfEntries cEnv cR2.entries = true := by
    simp [wfEntries, wfImage, wfLayers, cR2, cEntryE, cEntryIm, cIm, cBlobLayer, cEnv,
      MediaType.isIndexKind, MediaType.isImageKind]
  have heval : Update cEnv cStore cR2 [] = (.ok (), cStoreAfter, cTrace) := by
    simp [Update, applyOpts, cacheIndexBlobs, cacheEntries, cacheImageBlobs,
      cacheImageLayers, deleteBlobsExceptM, addBlobsLoop, mapInsert, mapLookup,
      Store.blobDigests, cR2, cEntryE, cEntryIm, cIm, cBlobLayer, cStore, cStoreAfter,
      cTrace, cEnv, MediaType.isIndexKind, MediaType.isImageKind]
  have h := update_reconciles_store cEnv cStore cR2 [4] cStoreAfter cTrace
    hwf rfl (by decide) heval
  exact ⟨hwf, rfl, by decide, heval, h.1, h.2⟩

/-- C7 (counterexample): digest 7 is reachable from two entries of the target
index and absent from the store; it is staged twice (two `stage 7` events)
and appended twice to the cached list — the within-call deduplication the
claim asserts does not exist in `cacheIndexBlobs`. -/
theorem cache_no_within_call_dedup :
    cacheIndexBlobs cDup [] [] = .ok ([7, 7], [], [(7, [4])], [.stage 7, .stage 7]) ∧
    ¬ ([7, 7] : List Hash).Nodup := by
  refine ⟨?_, by decide⟩
  simp [cacheIndexBlobs, cacheEntries, cDup, cDupEntry, mapInsert,
    MediaType.isIndexKind, MediaType.isImageKind]

/-- C7 (amended): deduplication in `cacheIndexBlobs` is against the store's
existing blobs only: a digest already in the store (the skip list) is never
staged and never appended to the cached list — it is appended to the keep
list instead — and although a digest absent from the store that is reachable
from several entries is staged once per encounter (see the counterexample),
every staging overwrites the same per-digest cache file, so the cache
directory always holds at most one file per digest. -/
theorem cache_store_dedup (ii : ImageIndexT) (skip : List Hash)
    (cached keep : List Hash) (cache : CacheMap) (stageOps : List StoreOp)
    (h : cacheIndexBlobs ii skip [] = .ok (cached, keep, cache, stageOps)) :
    (∀ d, d ∈ cached → d ∉ skip) ∧ (∀ d, d ∈ keep → d ∈ skip) ∧
    (cache.map Prod.fst).Nodup ∧ stageOps = cached.map StoreOp.stage := by
  obtain ⟨b1, b2, b3, b4, b5, b6⟩ :=
    cacheEntries_basic skip ii.entries [] cached keep cache stageOps h
  exact ⟨b2, b1, b5 (by simp), b6⟩

theorem cache_store_dedup_witness :
    cacheIndexBlobs cDup [] [] = .ok ([7, 7], [], [(7, [4])], [.stage 7, .stage 7]) ∧
    (∀ d, d ∈ ([7, 7] : List Hash) → d ∉ ([] : List Hash)) ∧
    (∀ d, d ∈ ([] : List Hash) → d ∈ ([] : List Hash)) ∧
    (([(7, [4])] : CacheMap).map Prod.fst).Nodup ∧
    ([.stage 7, .stage 7] : List StoreOp) = ([7, 7] : List Hash).map StoreOp.stage := by
  have heval : cacheIndexBlobs cDup [] [] =
      .ok ([7, 7], [], [(7, [4])], [.stage 7, .stage 7]) := by
    simp [cacheIndexBlobs, cacheEntries, cDup, cDupEntry, mapInsert,
      MediaType.isIndexKind, MediaType.isImageKind]
  have h := cache_store_dedup cDup [] [7, 7] [] [(7, [4])] [.stage 7, .stage 7] heval
  exact ⟨heval, h.1, h.2.1, h.2.2.1, h.2.2.2⟩

/-- C8: phase ordering of a mutating `Update` call: the trace is exactly all
staging events (one per cached digest, in order), then all content-blob
deletions, then the old root-index deletion, then one addition per staged
digest, and the new root-index write strictly last — so the new root index is
only ever written after an addition for every newly staged content blob, and
a failed call performs no mutation at all (a store inspected after a
mid-sequence failure never presents the new root index pointing at missing
content). -/
theorem update_phase_order (env : Env) (store : Store) (ii : ImageIndexT)
    (opts : List (Except GoErr Unit)) (res : Except GoErr Unit) (s' : Store)
    (tr : List StoreOp)
    (hwf : wfEntries env ii.entries = true)
    (h : Update env store ii opts = (res, s', tr)) :
    ((∃ e, res = .error e) → tr = []) ∧
    (res = .ok () → tr = [] ∨
      ∃ (cached keep : List Hash) (ext : List (Hash × List Nat)),
        tr = cached.map StoreOp.stage ++
          ((store.blobs.filter fun b => !keep.contains b.1).map fun b =>
            StoreOp.deleteBlob b.1) ++
          [StoreOp.deleteRoot] ++
          (ext.map fun p => StoreOp.addBlob p.1 p.2) ++
          [StoreOp.setRoot ii.raw] ∧
        ext.map Prod.fst = cached) := by
  rcases update_shape env store ii opts with ⟨e, heq⟩ | ⟨r, hr, hd, heq⟩ |
    ⟨r, cached, keep, cache, stageOps, ext, hr, hd, hcib, heq, hwfc⟩
  · rw [heq] at h
    cases h
    refine ⟨fun _ => rfl, ?_⟩
    intro hok
    exact absurd hok (by simp)
  · rw [heq] at h
    cases h
    refine ⟨?_, fun _ => Or.inl rfl⟩
    rintro ⟨e, he⟩
    exact absurd he (by simp)
  · rw [heq] at h
    cases h
    obtain ⟨b1, b2, b3, b4, b5, b6⟩ :=
      cacheEntries_basic store.blobDigests ii.entries [] cached keep cache stageOps hcib
    refine ⟨?_, fun _ => Or.inr ⟨cached, keep, ext, ?_, hwfc hwf⟩⟩
    · rintro ⟨e, he⟩
      exact absurd he (by simp)
    · rw [b6, (deleteBlobsExceptM_char keep store.blobs).2]

theorem update_phase_order_witness :
    wfEntries cEnv cR2.entries = true ∧
    Update cEnv cStore cR2 [] = (.ok (), cStoreAfter, cTrace) ∧
    ((∃ e, (Except.ok () : Except GoErr Unit) = .error e) → cTrace = []) ∧
    ((Except.ok () : Except GoErr Unit) = .ok () → cTrace = [] ∨
      ∃ (cached keep : List Hash) (ext : List (Hash × List Nat)),
        cTrace = cached.map StoreOp.stage ++
          ((cStore.blobs.filter fun b => !keep.contains b.1).map fun b =>
            StoreOp.deleteBlob b.1) ++
          [StoreOp.deleteRoot] ++
          (ext.map fun p => StoreOp.addBlob p.1 p.2) ++
          [StoreOp.setRoot cR2.raw] ∧
        ext.map Prod.fst = cached) := by
  have hwf : wfEntries cEnv cR2.entries = true := by
    simp [wfEntries, wfImage, wfLayers, cR2, cEntryE, cEntryIm, cIm, cBlobLayer, cEnv,
      MediaType.isIndexKind, MediaType.isImageKind]
  have heval : Update cEnv cStore cR2 [] = (.ok (), cStoreAfter, cTrace) := by
    simp [Update, applyOpts, cacheIndexBlobs, cacheEntries, cacheImageBlobs,
      cacheImageLayers, deleteBlobsExceptM, addBlobsLoop, mapInsert, mapLookup,
      Store.blobDigests, cR2, cEntryE, cEntryIm, cIm, cBlobLayer, cStore, cStoreAfter,
      cTrace, cEnv, MediaType.isIndexKind, MediaType.isImageKind]
  have h := update_phase_order cEnv cStore cR2 [] (.ok ()) cStoreAfter cTrace hwf heval
  exact ⟨hwf, heval, h.1, h.2⟩

end OciTools
